import Mathlib

/-
  Verification of the infinite-git server (imjasonh/infinite-git).

  Shallow embedding conventions:
  * Go byte strings are modelled as List Char, each Char holding one byte
    value (all data handled by this program is byte-oriented; for the ASCII
    data the program produces the two views coincide).
  * SHA-1 is modelled as an abstract parameter Hhex : typeString -> payload
    -> hex string, since the claims use only the functional dependence of
    the hash on the serialized content.  zlib compression and decompression
    are likewise abstract parameters, related by the round-trip hypothesis
    stated where a claim needs it.
  * Filesystem and store state is passed explicitly; I/O failures of the
    operating system are injected through explicit fault flags.
-/

namespace InfiniteGit

/-- Byte strings: one Char per byte. -/
abbrev Str := List Char

deriving instance DecidableEq for Except

/-- The NUL byte. -/
def nulChar : Char := Char.ofNat 0

/-- Association-list lookup keyed by byte strings (models Go map / file lookup). -/
def alookup {α : Type} : List (Str × α) → Str → Option α
  | [], _ => none
  | (k, v) :: t, key => if k = key then some v else alookup t key

/-- Decimal digit character, 48 + d for d < 10. -/
def decChar (d : Nat) : Char := Char.ofNat (48 + d)

/-- Base-10 digits of n, most significant first; the fuel argument only
bounds the recursion depth and any fuel of at least n gives the digits. -/
def decDigits : Nat → Nat → List Nat
  | 0, _ => []
  | fuel + 1, n => if n = 0 then [] else decDigits fuel (n / 10) ++ [n % 10]

/-- Decimal representation of a natural number, as produced by Go fmt %d
for nonnegative values: most-significant digit first, no padding, and a
single 0 for zero. -/
def decRepr (n : Nat) : Str :=
  if n = 0 then ['0'] else (decDigits n n).map decChar

theorem decDigits_spec : ∀ (fuel n : Nat), n ≤ fuel →
    decDigits fuel n = (Nat.digits 10 n).reverse := by
  intro fuel
  induction fuel with
  | zero =>
    intro n hn
    interval_cases n
    simp [decDigits]
  | succ fuel ih =>
    intro n hn
    by_cases hz : n = 0
    · subst hz
      simp [decDigits]
    · have h1 : 0 < n := Nat.pos_of_ne_zero hz
      have h2 : n / 10 ≤ fuel := by
        have := Nat.div_lt_self h1 (by norm_num : (1 : Nat) < 10)
        omega
      unfold decDigits
      rw [if_neg hz, ih (n / 10) h2, Nat.digits_def' (by norm_num : (1 : Nat) < 10) h1]
      simp

/-- The decimal representation in terms of the mathematical digit list. -/
theorem decRepr_digits (n : Nat) :
    decRepr n = if n = 0 then ['0'] else (Nat.digits 10 n).reverse.map decChar := by
  unfold decRepr
  by_cases hz : n = 0
  · rw [if_pos hz, if_pos hz]
  · rw [if_neg hz, if_neg hz, decDigits_spec n n (Nat.le_refl n)]

/-- Decimal representation of an int64 as produced by Go fmt %d. -/
def intRepr (i : Int) : Str :=
  if i < 0 then '-' :: decRepr (-i).toNat else decRepr i.toNat

theorem toNat_decChar {d : Nat} (hd : d < 10) : (decChar d).toNat = 48 + d := by
  interval_cases d <;> rfl

/-- Every character of a decimal representation is a digit character. -/
theorem decRepr_mem_range {n : Nat} {c : Char} (hc : c ∈ decRepr n) :
    48 ≤ c.toNat ∧ c.toNat ≤ 57 := by
  rw [decRepr_digits] at hc
  split at hc
  · rw [List.mem_singleton] at hc
    subst hc
    decide
  · simp only [List.mem_map, List.mem_reverse] at hc
    obtain ⟨d, hd, rfl⟩ := hc
    have hlt : d < 10 := Nat.digits_lt_base (by norm_num) hd
    rw [toNat_decChar hlt]
    omega

theorem nul_not_mem_decRepr (n : Nat) : nulChar ∉ decRepr n := by
  intro h
  have := decRepr_mem_range h
  simp [nulChar] at this

theorem newline_not_mem_decRepr (n : Nat) : '\n' ∉ decRepr n := by
  intro h
  have h2 := decRepr_mem_range h
  simp at h2

/-- Mapping digit characters back to digits recovers the digit list. -/
theorem map_decChar_inv {l : List Nat} (hl : ∀ d ∈ l, d < 10) :
    (l.map decChar).map (fun c => c.toNat - 48) = l := by
  induction l with
  | nil => rfl
  | cons d t ih =>
    have hd : d < 10 := hl d (List.mem_cons_self d t)
    simp only [List.map_cons, toNat_decChar hd, List.cons.injEq]
    exact ⟨by omega, ih fun x hx => hl x (List.mem_cons_of_mem d hx)⟩

/-- Digit-character encoding cancels on lists of digits. -/
theorem map_decChar_cancel {l1 l2 : List Nat} (h1 : ∀ d ∈ l1, d < 10)
    (h2 : ∀ d ∈ l2, d < 10) (h : l1.map decChar = l2.map decChar) : l1 = l2 := by
  have h3 := congrArg (List.map (fun c => c.toNat - 48)) h
  rwa [map_decChar_inv h1, map_decChar_inv h2] at h3

theorem digits_all_lt (n : Nat) : ∀ d ∈ Nat.digits 10 n, d < 10 :=
  fun _ hd => Nat.digits_lt_base (by norm_num) hd

theorem digits_rev_all_lt (n : Nat) : ∀ d ∈ (Nat.digits 10 n).reverse, d < 10 :=
  fun d hd => digits_all_lt n d (List.mem_reverse.mp hd)

/-- Decimal representation is injective. -/
theorem decRepr_inj {m n : Nat} (h : decRepr m = decRepr n) : m = n := by
  rw [decRepr_digits, decRepr_digits] at h
  by_cases hm : m = 0 <;> by_cases hn : n = 0
  · exact hm.trans hn.symm
  · rw [if_pos hm, if_neg hn] at h
    have h2 : ([0] : List Nat) = (Nat.digits 10 n).reverse :=
      map_decChar_cancel (by simp) (digits_rev_all_lt n) h
    have h3 : Nat.digits 10 n = [0] := by
      have h4 := congrArg List.reverse h2
      simpa using h4.symm
    have h5 := Nat.ofDigits_digits 10 n
    rw [h3] at h5
    simp [Nat.ofDigits] at h5
    exact absurd h5.symm hn
  · rw [if_neg hm, if_pos hn] at h
    have h2 : (Nat.digits 10 m).reverse = ([0] : List Nat) :=
      map_decChar_cancel (digits_rev_all_lt m) (by simp) h
    have h3 : Nat.digits 10 m = [0] := by
      have h4 := congrArg List.reverse h2
      simpa using h4
    have h5 := Nat.ofDigits_digits 10 m
    rw [h3] at h5
    simp [Nat.ofDigits] at h5
    exact absurd h5.symm hm
  · rw [if_neg hm, if_neg hn] at h
    have h2 : (Nat.digits 10 m).reverse = (Nat.digits 10 n).reverse :=
      map_decChar_cancel (digits_rev_all_lt m) (digits_rev_all_lt n) h
    have h3 : Nat.digits 10 m = Nat.digits 10 n := by
      have h4 := congrArg List.reverse h2
      simpa using h4
    have hm2 := Nat.ofDigits_digits 10 m
    have hn2 := Nat.ofDigits_digits 10 n
    rw [h3] at hm2
    exact hm2.symm.trans hn2

/-- Strict bytewise lexicographic comparison of byte strings; the semantics
of the Go string less-than operator used by the tree-entry sort. -/
def strLt : Str → Str → Bool
  | [], [] => false
  | [], _ :: _ => true
  | _ :: _, [] => false
  | a :: as, b :: bs =>
    if a.toNat < b.toNat then true
    else if b.toNat < a.toNat then false
    else strLt as bs

theorem strLt_asymm : ∀ (a b : Str), strLt a b = true → strLt b a = false := by
  intro a
  induction a with
  | nil =>
    intro b h
    cases b with
    | nil => simp [strLt] at h
    | cons x xs => rfl
  | cons c cs ih =>
    intro b h
    cases b with
    | nil => simp [strLt] at h
    | cons x xs =>
      simp only [strLt] at h ⊢
      rcases Nat.lt_trichotomy c.toNat x.toNat with h1 | h1 | h1
      · rw [if_neg (by omega), if_pos (by omega)]
      · rw [if_neg (by omega), if_neg (by omega)] at h
        rw [if_neg (by omega), if_neg (by omega)]
        exact ih xs h
      · rw [if_neg (by omega), if_pos (by omega)] at h
        exact absurd h (by simp)

theorem strLt_trans :
    ∀ (a b c : Str), strLt a b = true → strLt b c = true → strLt a c = true := by
  intro a
  induction a with
  | nil =>
    intro b c hab hbc
    cases c with
    | nil =>
      cases b with
      | nil => exact hab
      | cons y ys => simp [strLt] at hbc
    | cons z zs => rfl
  | cons x xs ih =>
    intro b c hab hbc
    cases b with
    | nil => simp [strLt] at hab
    | cons y ys =>
      cases c with
      | nil => simp [strLt] at hbc
      | cons z zs =>
        simp only [strLt] at hab hbc ⊢
        rcases Nat.lt_trichotomy x.toNat y.toNat with h1 | h1 | h1 <;>
          rcases Nat.lt_trichotomy y.toNat z.toNat with h2 | h2 | h2
        · rw [if_pos (by omega)]
        · rw [if_pos (by omega)]
        · rw [if_neg (by omega), if_pos (by omega)] at hbc
          exact absurd hbc (by simp)
        · rw [if_pos (by omega)]
        · rw [if_neg (by omega), if_neg (by omega)] at hab hbc
          rw [if_neg (by omega), if_neg (by omega)]
          exact ih ys zs hab hbc
        · rw [if_neg (by omega), if_pos (by omega)] at hbc
          exact absurd hbc (by simp)
        · rw [if_neg (by omega), if_pos (by omega)] at hab
          exact absurd hab (by simp)
        · rw [if_neg (by omega), if_pos (by omega)] at hab
          exact absurd hab (by simp)
        · rw [if_neg (by omega), if_pos (by omega)] at hab
          exact absurd hab (by simp)

theorem char_eq_of_toNat_eq {c x : Char} (h : c.toNat = x.toNat) : c = x := by
  have h2 : c.val = x.val := UInt32.toNat.inj h
  exact Char.eq_of_val_eq h2

theorem strLt_conn :
    ∀ (a b : Str), strLt a b = false → strLt b a = false → a = b := by
  intro a
  induction a with
  | nil =>
    intro b hab _
    cases b with
    | nil => rfl
    | cons x xs => simp [strLt] at hab
  | cons c cs ih =>
    intro b hab hba
    cases b with
    | nil => simp [strLt] at hba
    | cons x xs =>
      simp only [strLt] at hab hba
      rcases Nat.lt_trichotomy c.toNat x.toNat with h1 | h1 | h1
      · rw [if_pos (by omega)] at hab
        exact absurd hab (by simp)
      · rw [if_neg (by omega), if_neg (by omega)] at hab hba
        rw [char_eq_of_toNat_eq h1, ih xs hab hba]
      · rw [if_pos (by omega)] at hba
        exact absurd hba (by simp)

/-- One byte string is no greater than another: the negation of the strict
comparison in the other direction. -/
theorem strLt_le_trans {a b c : Str} (hba : strLt b a = false)
    (hcb : strLt c b = false) : strLt c a = false := by
  cases hca : strLt c a with
  | false => rfl
  | true =>
    exfalso
    cases hab : strLt a b with
    | true =>
      have h2 := strLt_trans c a b hca hab
      rw [hcb] at h2
      exact Bool.noConfusion h2
    | false =>
      have hba2 := strLt_conn a b hab hba
      rw [hba2] at hca
      rw [hcb] at hca
      exact Bool.noConfusion hca

/-- An entry of a Git tree: file mode, file name, and hex object hash
(object.go, TreeEntry). -/
structure TreeEntry where
  mode : Str
  name : Str
  hash : Str
deriving DecidableEq

/-- Ascending-name order on tree entries: the right name is not strictly
below the left name. -/
def EntryLe (a b : TreeEntry) : Prop := strLt b.name a.name = false

/-- Insertion step of the name sort performed by Tree.Serialize. -/
def insertEntry (e : TreeEntry) : List TreeEntry → List TreeEntry
  | [] => [e]
  | x :: xs => if strLt x.name e.name then x :: insertEntry e xs else e :: x :: xs

/-- Sort of tree entries by name, the embedding of the sort.Slice call in
Tree.Serialize (object.go line 182); any comparison sort realizes it. -/
def sortEntries : List TreeEntry → List TreeEntry
  | [] => []
  | e :: es => insertEntry e (sortEntries es)

theorem insertEntry_perm (e : TreeEntry) (l : List TreeEntry) :
    (insertEntry e l).Perm (e :: l) := by
  induction l with
  | nil => rfl
  | cons x xs ih =>
    unfold insertEntry
    split
    · exact (ih.cons x).trans (List.Perm.swap e x xs)
    · rfl

theorem sortEntries_perm (l : List TreeEntry) : (sortEntries l).Perm l := by
  induction l with
  | nil => rfl
  | cons e es ih => exact (insertEntry_perm e (sortEntries es)).trans (ih.cons e)

theorem insertEntry_sorted (e : TreeEntry) (l : List TreeEntry)
    (hl : l.Pairwise EntryLe) : (insertEntry e l).Pairwise EntryLe := by
  induction l with
  | nil => simp [insertEntry, List.Pairwise]
  | cons x xs ih =>
    rcases List.pairwise_cons.mp hl with ⟨hx, hxs⟩
    unfold insertEntry
    split
    · rename_i hlt
      refine List.pairwise_cons.mpr ⟨?_, ih hxs⟩
      intro y hy
      have hy2 : y ∈ e :: xs := (insertEntry_perm e xs).mem_iff.mp hy
      rcases List.mem_cons.mp hy2 with rfl | hy3
      · exact strLt_asymm _ _ hlt
      · exact hx y hy3
    · rename_i hnlt
      have hnlt2 : strLt x.name e.name = false := by simpa using hnlt
      refine List.pairwise_cons.mpr ⟨?_, hl⟩
      intro y hy
      rcases List.mem_cons.mp hy with rfl | hy2
      · exact hnlt2
      · exact strLt_le_trans hnlt2 (hx y hy2)

theorem sortEntries_sorted (l : List TreeEntry) :
    (sortEntries l).Pairwise EntryLe := by
  induction l with
  | nil => simp [sortEntries, List.Pairwise]
  | cons e es ih => exact insertEntry_sorted e (sortEntries es) ih

/-- Lowercase hex digit character for a value below 16 (Go fmt %x). -/
def hexDigitChar (n : Nat) : Char :=
  if n < 10 then Char.ofNat (48 + n) else Char.ofNat (87 + n)

/-- Lowercase hex encoding of a byte list, as produced by Go fmt %x on a
byte slice. -/
def hexEncode : List Nat → Str
  | [] => []
  | b :: t => hexDigitChar (b / 16 % 16) :: hexDigitChar (b % 16) :: hexEncode t

/-- Value of one hex digit character, accepting both cases
(encoding/hex fromHexChar). -/
def hexCharVal (c : Char) : Option Nat :=
  if 48 ≤ c.toNat ∧ c.toNat ≤ 57 then some (c.toNat - 48)
  else if 97 ≤ c.toNat ∧ c.toNat ≤ 102 then some (c.toNat - 87)
  else if 65 ≤ c.toNat ∧ c.toNat ≤ 70 then some (c.toNat - 55)
  else none

/-- Hex decoding of a string into bytes; none on odd length or a non-hex
character (encoding/hex DecodeString, whose error makes Tree.Serialize
panic in the source). -/
def hexDecode : Str → Option (List Nat)
  | [] => some []
  | [_] => none
  | a :: b :: t =>
    match hexCharVal a, hexCharVal b, hexDecode t with
    | some x, some y, some r => some ((16 * x + y) :: r)
    | _, _, _ => none

/-- A commit object's fields (object/commit.go, Commit).  Timestamps are the
unix seconds and timezone string that Serialize prints. -/
structure CommitObj where
  tree : Str
  parent : Str
  author : Str
  authorUnix : Int
  authorTz : Str
  committer : Str
  commitUnix : Int
  commitTz : Str
  message : Str
deriving DecidableEq

/-- Serialization of a commit (object/commit.go, Commit.Serialize). -/
def serializeCommit (c : CommitObj) : Str :=
  ("tree ".data) ++ c.tree ++ ['\n']
  ++ (if c.parent ≠ [] then ("parent ".data) ++ c.parent ++ ['\n'] else [])
  ++ ("author ".data) ++ c.author ++ [' '] ++ intRepr c.authorUnix
    ++ [' '] ++ c.authorTz ++ ['\n']
  ++ ("committer ".data) ++ c.committer ++ [' '] ++ intRepr c.commitUnix
    ++ [' '] ++ c.commitTz ++ ['\n']
  ++ ['\n'] ++ c.message
  ++ (if c.message ≠ [] ∧ c.message.getLast? ≠ some '\n' then ['\n'] else [])

/-- Serialization of a sorted entry list: mode, space, name, NUL, then the
20 binary hash bytes; none models the panic on a non-hex entry hash
(object/object.go, Tree.Serialize body). -/
def serEntries : List TreeEntry → Option Str
  | [] => some []
  | e :: t =>
    match hexDecode e.hash, serEntries t with
    | some bin, some rest =>
      some (e.mode ++ ' ' :: e.name ++ nulChar :: (bin.map Char.ofNat ++ rest))
    | _, _ => none

/-- Tree serialization: sort entries by name, then serialize each
(object/object.go, Tree.Serialize). -/
def serializeTree (entries : List TreeEntry) : Option Str :=
  serEntries (sortEntries entries)

/-- The closed sum of Git object kinds (object.Object implementations). -/
inductive GitObj where
  | blob (content : Str)
  | tree (entries : List TreeEntry)
  | commit (c : CommitObj)
deriving DecidableEq

/-- Object type string (Type method of each object kind). -/
def typeStr : GitObj → Str
  | .blob _ => "blob".data
  | .tree _ => "tree".data
  | .commit _ => "commit".data

/-- Serialization of any object; none models the tree panic branch. -/
def serializeObj : GitObj → Option Str
  | .blob content => some content
  | .tree entries => serializeTree entries
  | .commit c => some (serializeCommit c)

/-- Loose-object header: type, space, decimal payload length, NUL
(object.go, Hash and Write). -/
def objHeader (t : Str) (payload : Str) : Str :=
  t ++ ' ' :: decRepr payload.length ++ [nulChar]

/-- Drop everything up to and including the first NUL byte; none when no NUL
exists (object.go Read, bytes.IndexByte followed by the slice). -/
def dropThroughNul : Str → Option Str
  | [] => none
  | c :: t => if c = nulChar then some t else dropThroughNul t

theorem dropThroughNul_append {h p : Str} (hh : nulChar ∉ h) :
    dropThroughNul (h ++ nulChar :: p) = some p := by
  induction h with
  | nil => simp [dropThroughNul]
  | cons c t ih =>
    have hc : c ≠ nulChar := fun hc => hh (hc ▸ List.mem_cons_self c t)
    simp only [List.cons_append, dropThroughNul, if_neg hc]
    exact ih fun hm => hh (List.mem_cons_of_mem c hm)

/-- Split at the first NUL byte: the part before it and the part after it;
none when no NUL exists (protocol upload-pack header parse). -/
def splitAtNul : Str → Option (Str × Str)
  | [] => none
  | c :: t =>
    if c = nulChar then some ([], t)
    else (splitAtNul t).map fun p => (c :: p.1, p.2)

theorem splitAtNul_append {h p : Str} (hh : nulChar ∉ h) :
    splitAtNul (h ++ nulChar :: p) = some (h, p) := by
  induction h with
  | nil => simp [splitAtNul]
  | cons c t ih =>
    have hc : c ≠ nulChar := fun hc => hh (hc ▸ List.mem_cons_self c t)
    simp only [List.cons_append, splitAtNul, if_neg hc]
    rw [List.append_eq, ih fun hm => hh (List.mem_cons_of_mem c hm)]
    rfl

theorem length_dropWhile_le {α : Type} (p : α → Bool) (l : List α) :
    (l.dropWhile p).length ≤ l.length := by
  induction l with
  | nil => exact Nat.le_refl 0
  | cons a t ih =>
    rw [List.dropWhile_cons]
    split
    · exact Nat.le_trans ih (Nat.le_succ _)
    · exact Nat.le_refl _

/-- Loop of the tree parser; the fuel argument only bounds the recursion
depth, and since every iteration of the source loop consumes at least 22
bytes of the input, fuel equal to the input length never runs out. -/
def parseTreeGo : Nat → Str → List TreeEntry
  | 0, _ => []
  | fuel + 1, data =>
    match data.dropWhile (fun c => c ≠ ' ') with
    | [] => []
    | _ :: afterSpace =>
      match afterSpace.dropWhile (fun c => c ≠ nulChar) with
      | [] => []
      | _ :: afterNul =>
        if afterNul.length < 20 then []
        else
          { mode := data.takeWhile (fun c => c ≠ ' '),
            name := afterSpace.takeWhile (fun c => c ≠ nulChar),
            hash := hexEncode ((afterNul.take 20).map Char.toNat) }
            :: parseTreeGo fuel (afterNul.drop 20)

/-- Parse raw tree bytes into entries (generator/commit.go parseTree and the
identical protocol parseTreeData): scan the mode up to a space, the name up
to a NUL, then 20 binary hash bytes rendered as lowercase hex; stop as soon
as any part is missing. -/
def parseTree (data : Str) : List TreeEntry := parseTreeGo data.length data

/-- Split a string into lines, dropping a trailing empty segment
(generator/commit.go splitLines). -/
def splitLinesGo : Str → Str → List Str
  | [], acc => if acc = [] then [] else [acc.reverse]
  | c :: t, acc =>
    if c = '\n' then acc.reverse :: splitLinesGo t [] else splitLinesGo t (c :: acc)

/-- Line splitter used by the generator to scan a commit payload. -/
def splitLines (s : Str) : List Str := splitLinesGo s []

/-- Split on every occurrence of a separator byte keeping all segments,
including empty ones (Go bytes.Split and strings.Split semantics). -/
def splitOnChar (sep : Char) : Str → List Str
  | [] => [[]]
  | c :: t =>
    if c = sep then [] :: splitOnChar sep t
    else
      match splitOnChar sep t with
      | [] => [[c]]
      | h :: r => (c :: h) :: r

/-
  Repository layer (repo/repo.go) for the generator claims.  The object
  store is viewed through the repo API: a map from hash hex to the pair
  (type string, payload); objects on disk hold zlib(header then payload)
  and ReadObject returns exactly the payload (the round-trip fact proved
  for the byte-level store below).  The abstract hash parameter Hhex maps
  a type string and payload to the hex SHA-1 the source computes.
-/

/-- State of a repository as the generator sees it. -/
structure RepoState where
  counter : Nat
  refs : List (Str × Str)
  head : Str
  objects : List (Str × (Str × Str))
deriving DecidableEq

/-- Errors a generator step can surface: injected I/O faults, the missing
main branch, the out-of-range slice on a hash shorter than 2 bytes
(object.go line 83 and 108), a missing object, and the tree-serialize
panic on a non-hex hash. -/
inductive GenErr where
  | ioFault
  | mainNotFound
  | panicShortHash
  | objectNotFound
  | badTreeHex
deriving DecidableEq

/-- Injected operating-system failures for each fallible step of
GenerateCommit. -/
structure Faults where
  getRefs : Bool
  readParent : Bool
  readTree : Bool
  writeBlob : Bool
  writeTree : Bool
  writeCommit : Bool
  updateRef : Bool
deriving DecidableEq

/-- A run with no injected faults. -/
def noFaults : Faults := ⟨false, false, false, false, false, false, false⟩

/-- The only mutable ref name. -/
def mainRef : Str := "refs/heads/main".data

/-- GetRefs (repo.go lines 147 to 202): the files under refs plus the
resolved HEAD; a symbolic HEAD pointing at an unknown ref contributes no
HEAD key. -/
def getRefs (st : RepoState) : List (Str × Str) :=
  if ("ref: ".data).isPrefixOf st.head then
    match alookup st.refs (st.head.drop 5) with
    | some h => st.refs ++ [("HEAD".data, h)]
    | none => st.refs
  else st.refs ++ [("HEAD".data, st.head)]

/-- ReadObject (repo.go line 223, object.go Read): the hash slice panics
below length 2, the payload is returned on a hit. -/
def repoReadObject (st : RepoState) (hash : Str) : Except GenErr Str :=
  if hash.length < 2 then .error .panicShortHash
  else
    match alookup st.objects hash with
    | none => .error .objectNotFound
    | some tp => .ok tp.2

/-- UpdateRef (repo.go lines 238 to 253): overwrite the ref file. -/
def updateRef (st : RepoState) (name hex : Str) : RepoState :=
  { st with refs := (name, hex) :: st.refs }

/-- The tree hash parsed from a commit payload: the first line longer than
5 bytes starting with the tree keyword (generator/commit.go lines 48 to 55);
empty when no such line exists. -/
def findTreeHash (lines : List Str) : Str :=
  match lines.find? (fun l => decide (5 < l.length) && decide (l.take 5 = "tree ".data)) with
  | some l => l.drop 5
  | none => []

/-- Content of the generated per-pull blob (generator/commit.go line 68). -/
def blobContent (k : Nat) (rfc : Str) : Str :=
  "Pull request #".data ++ decRepr k ++ "\nTimestamp: ".data ++ rfc ++ ['\n']

/-- Name of the generated per-pull file (generator/commit.go line 67). -/
def pullFileName (k : Nat) : Str :=
  "pull_".data ++ decRepr k ++ ".txt".data

/-- Generated commit message (generator/commit.go line 94). -/
def pullMsg (k : Nat) (d : Str) : Str :=
  "Pull #".data ++ decRepr k ++ " at ".data ++ d

/-- The fixed author and committer identity. -/
def authorIdent : Str := "Infinite Git <infinite@example.com>".data

/-- The timestamps the generator reads from the clock during one call:
the RFC3339 string in the blob, the date string in the message, and the
unix seconds and timezone written into the commit header. -/
structure TimeInfo where
  rfc3339 : Str
  msgDate : Str
  unix : Int
  tz : Str

/-- Final phase of GenerateCommit (generator/commit.go lines 88 to 113):
write the tree, write the commit, update the main ref.  The argument
carries the optional serialized tree (none when Tree.Serialize panicked on
a non-hex entry hash), and the WriteObject calls are inlined: each computes
the hex of the typed payload, panics when it is shorter than the two bytes
the path slice needs, and stores the object at its hex. -/
def genWriteTree (Hhex : Str → Str → Str) (st1 : RepoState) (count : Nat)
    (t : TimeInfo) (f : Faults) (parentHash : Str) (treeBytesOpt : Option Str) :
    Except GenErr Str × RepoState :=
  match treeBytesOpt with
  | none => (.error .badTreeHex, st1)
  | some treeBytes =>
    if f.writeTree then (.error .ioFault, st1) else
    let treeHash := Hhex ("tree".data) treeBytes
    if treeHash.length < 2 then (.error .panicShortHash, st1) else
    let st2 := { st1 with objects := (treeHash, ("tree".data, treeBytes)) :: st1.objects }
    if f.writeCommit then (.error .ioFault, st2) else
    let commitBytes := serializeCommit
      { tree := treeHash, parent := parentHash,
        author := authorIdent, authorUnix := t.unix, authorTz := t.tz,
        committer := authorIdent, commitUnix := t.unix, commitTz := t.tz,
        message := pullMsg count t.msgDate }
    let commitHash := Hhex ("commit".data) commitBytes
    if commitHash.length < 2 then (.error .panicShortHash, st2) else
    let st3 := { st2 with objects := (commitHash, ("commit".data, commitBytes)) :: st2.objects }
    if f.updateRef then (.error .ioFault, st3) else
    (.ok commitHash, updateRef st3 mainRef commitHash)

/-- Middle phase of GenerateCommit (generator/commit.go lines 63 to 91):
parse the parent tree, write the per-pull blob, build the new entry list. -/
def genWriteBlob (Hhex : Str → Str → Str) (st : RepoState) (count : Nat)
    (t : TimeInfo) (f : Faults) (parentHash parentTreeData : Str) :
    Except GenErr Str × RepoState :=
  if f.writeBlob then (.error .ioFault, st) else
  let blobHash := Hhex ("blob".data) (blobContent count t.rfc3339)
  if blobHash.length < 2 then (.error .panicShortHash, st) else
  let st1 := { st with objects :=
    (blobHash, ("blob".data, blobContent count t.rfc3339)) :: st.objects }
  genWriteTree Hhex st1 count t f parentHash
    (serializeTree (parseTree parentTreeData
      ++ [{ mode := "100644".data, name := pullFileName count, hash := blobHash }]))

/-- GenerateCommit (generator/commit.go lines 26 to 114).  The counter
increment happens first and is never rolled back; every later step can
fail, and the ref update is the final step. -/
def genCommit (Hhex : Str → Str → Str) (st0 : RepoState) (t : TimeInfo)
    (f : Faults) : Except GenErr Str × RepoState :=
  let count := st0.counter + 1
  let st := { st0 with counter := count }
  if f.getRefs then (.error .ioFault, st) else
  match alookup (getRefs st) mainRef with
  | none => (.error .mainNotFound, st)
  | some parentHash =>
    if parentHash = [] then (.error .mainNotFound, st) else
    if f.readParent then (.error .ioFault, st) else
    match repoReadObject st parentHash with
    | .error e => (.error e, st)
    | .ok parentData =>
      if f.readTree then (.error .ioFault, st) else
      match repoReadObject st (findTreeHash (splitLines parentData)) with
      | .error e => (.error e, st)
      | .ok parentTreeData => genWriteBlob Hhex st count t f parentHash parentTreeData

theorem genWriteTree_state {Hhex : Str → Str → Str} {st1 : RepoState} {count : Nat}
    {t : TimeInfo} {f : Faults} {ph : Str} {tbo : Option Str}
    {r : Except GenErr Str} {st4 : RepoState}
    (h : genWriteTree Hhex st1 count t f ph tbo = (r, st4)) :
    st4.head = st1.head ∧ st4.counter = st1.counter ∧
      (∀ e, r = .error e → st4.refs = st1.refs) := by
  delta genWriteTree at h
  conv at h => lhs; zeta
  repeat' split at h
  all_goals simp only [Prod.mk.injEq] at h
  all_goals obtain ⟨h1, h2⟩ := h
  all_goals subst h2
  all_goals subst h1
  all_goals refine ⟨rfl, rfl, fun e he => ?_⟩
  all_goals first
    | rfl
    | exact Except.noConfusion he

theorem genWriteBlob_state {Hhex : Str → Str → Str} {st : RepoState} {count : Nat}
    {t : TimeInfo} {f : Faults} {ph ptd : Str}
    {r : Except GenErr Str} {st4 : RepoState}
    (h : genWriteBlob Hhex st count t f ph ptd = (r, st4)) :
    st4.head = st.head ∧ st4.counter = st.counter ∧
      (∀ e, r = .error e → st4.refs = st.refs) := by
  delta genWriteBlob at h
  conv at h => lhs; zeta
  repeat' split at h
  · simp only [Prod.mk.injEq] at h
    obtain ⟨h1, h2⟩ := h
    subst h2
    subst h1
    exact ⟨rfl, rfl, fun e he => rfl⟩
  · simp only [Prod.mk.injEq] at h
    obtain ⟨h1, h2⟩ := h
    subst h2
    subst h1
    exact ⟨rfl, rfl, fun e he => rfl⟩
  · have h3 := genWriteTree_state h
    exact ⟨h3.1, h3.2.1, h3.2.2⟩

/-- On any failing GenerateCommit the refs and HEAD are untouched while the
counter has still been advanced by one. -/
theorem genCommit_error_state {Hhex : Str → Str → Str} {st0 : RepoState}
    {t : TimeInfo} {f : Faults} {e : GenErr} {st4 : RepoState}
    (h : genCommit Hhex st0 t f = (.error e, st4)) :
    st4.refs = st0.refs ∧ st4.head = st0.head ∧ st4.counter = st0.counter + 1 := by
  delta genCommit at h
  conv at h => lhs; zeta
  repeat' split at h
  all_goals try (simp only [Prod.mk.injEq] at h; obtain ⟨h1, h2⟩ := h; subst h2; exact ⟨rfl, rfl, rfl⟩)
  have h3 := genWriteBlob_state h
  exact ⟨h3.2.2 e rfl, h3.1, h3.2.1⟩

/-- On any GenerateCommit the counter of the resulting state is the input
counter plus one. -/
theorem genCommit_counter {Hhex : Str → Str → Str} {st0 : RepoState}
    {t : TimeInfo} {f : Faults} {r : Except GenErr Str} {st4 : RepoState}
    (h : genCommit Hhex st0 t f = (r, st4)) : st4.counter = st0.counter + 1 := by
  delta genCommit at h
  conv at h => lhs; zeta
  repeat' split at h
  all_goals try (simp only [Prod.mk.injEq] at h; obtain ⟨h1, h2⟩ := h; subst h2; rfl)
  exact (genWriteBlob_state h).2.1

set_option maxHeartbeats 1600000 in
theorem genWriteTree_ok {Hhex : Str → Str → Str} {st1 : RepoState} {count : Nat}
    {t : TimeInfo} {f : Faults} {ph : Str} {tbo : Option Str}
    {hex : Str} {st4 : RepoState}
    (h : genWriteTree Hhex st1 count t f ph tbo = (.ok hex, st4)) :
    ∃ tb, tbo = some tb ∧
      hex = Hhex ("commit".data) (serializeCommit
        { tree := Hhex ("tree".data) tb, parent := ph,
          author := authorIdent, authorUnix := t.unix, authorTz := t.tz,
          committer := authorIdent, commitUnix := t.unix, commitTz := t.tz,
          message := pullMsg count t.msgDate }) ∧
      alookup st4.refs mainRef = some hex ∧
      (Hhex ("tree".data) tb, ("tree".data, tb)) ∈ st4.objects := by
  delta genWriteTree at h
  conv at h => lhs; zeta
  repeat' split at h
  all_goals simp only [Prod.mk.injEq] at h
  all_goals obtain ⟨h1, h2⟩ := h
  all_goals try exact Except.noConfusion h1
  injection h1 with h1
  subst h2
  rename_i tb hwt hl2 hwc hlc hupd
  refine ⟨tb, rfl, h1.symm, ?_, ?_⟩
  · rw [← h1]
    simp only [updateRef, alookup]
    rw [if_pos trivial]
  · exact List.mem_cons_of_mem _ (List.mem_cons_self _ _)

theorem genWriteBlob_ok {Hhex : Str → Str → Str} {st : RepoState} {count : Nat}
    {t : TimeInfo} {f : Faults} {ph ptd : Str} {hex : Str} {st4 : RepoState}
    (h : genWriteBlob Hhex st count t f ph ptd = (.ok hex, st4)) :
    ∃ tb,
      serializeTree (parseTree ptd
        ++ [{ mode := "100644".data, name := pullFileName count,
              hash := Hhex ("blob".data) (blobContent count t.rfc3339) }]) = some tb ∧
      hex = Hhex ("commit".data) (serializeCommit
        { tree := Hhex ("tree".data) tb, parent := ph,
          author := authorIdent, authorUnix := t.unix, authorTz := t.tz,
          committer := authorIdent, commitUnix := t.unix, commitTz := t.tz,
          message := pullMsg count t.msgDate }) ∧
      alookup st4.refs mainRef = some hex ∧
      (Hhex ("tree".data) tb, ("tree".data, tb)) ∈ st4.objects := by
  delta genWriteBlob at h
  conv at h => lhs; zeta
  repeat' split at h
  · simp only [Prod.mk.injEq] at h
    exact Except.noConfusion h.1
  · simp only [Prod.mk.injEq] at h
    exact Except.noConfusion h.1
  · obtain ⟨tb, htb, hhex, hlook, hmem⟩ := genWriteTree_ok h
    exact ⟨tb, htb, hhex, hlook, hmem⟩

/-- Characterization of a successful GenerateCommit: the parent lookups,
the serialized tree, the returned hex, and the advanced ref. -/
theorem genCommit_ok_char {Hhex : Str → Str → Str} {st0 : RepoState}
    {t : TimeInfo} {f : Faults} {hex : Str} {st4 : RepoState}
    (h : genCommit Hhex st0 t f = (.ok hex, st4)) :
    ∃ parentHash parentData parentTreeData treeBytes,
      alookup (getRefs st0) mainRef = some parentHash ∧
      parentHash ≠ [] ∧
      repoReadObject st0 parentHash = .ok parentData ∧
      repoReadObject st0 (findTreeHash (splitLines parentData)) = .ok parentTreeData ∧
      serializeTree (parseTree parentTreeData ++
        [{ mode := "100644".data, name := pullFileName (st0.counter + 1),
           hash := Hhex ("blob".data) (blobContent (st0.counter + 1) t.rfc3339) }])
        = some treeBytes ∧
      hex = Hhex ("commit".data) (serializeCommit
        { tree := Hhex ("tree".data) treeBytes, parent := parentHash,
          author := authorIdent, authorUnix := t.unix, authorTz := t.tz,
          committer := authorIdent, commitUnix := t.unix, commitTz := t.tz,
          message := pullMsg (st0.counter + 1) t.msgDate }) ∧
      st4.counter = st0.counter + 1 ∧
      alookup st4.refs mainRef = some hex ∧
      (Hhex ("tree".data) treeBytes, ("tree".data, treeBytes)) ∈ st4.objects := by
  have hcount := genCommit_counter h
  delta genCommit at h
  conv at h => lhs; zeta
  repeat' split at h
  all_goals try (simp only [Prod.mk.injEq] at h; exact Except.noConfusion h.1)
  rename_i hgr tbo0 parentHash hpar hne hrp x1 parentData hread hrt x2 parentTreeData hreadtree
  obtain ⟨tb, htb, hhex, hlook, hmem⟩ := genWriteBlob_ok h
  exact ⟨parentHash, parentData, parentTreeData, tb, hpar, hne, hread, hreadtree,
    htb, hhex, hcount, hlook, hmem⟩

theorem getLast?_not_of_not_mem {l : Str} {x : Char} (hx : x ∉ l) :
    l.getLast? ≠ some x := by
  intro h
  obtain ⟨hne, hEq⟩ := List.mem_getLast?_eq_getLast (Option.mem_def.mpr h)
  exact hx (hEq ▸ List.getLast_mem hne)

theorem takeWhile_append_stop {α : Type} (p : α → Bool) (xs ys : List α) (y : α)
    (hxs : ∀ x ∈ xs, p x = true) (hy : p y = false) :
    List.takeWhile p (xs ++ y :: ys) = xs := by
  induction xs with
  | nil => simp [List.takeWhile, hy]
  | cons a t ih =>
    have ha : p a = true := hxs a (List.mem_cons_self a t)
    simp only [List.cons_append, List.takeWhile_cons, ha, if_true]
    rw [ih fun x hx => hxs x (List.mem_cons_of_mem a hx)]

/-- Two serialized byte strings ending in a newline, the message, and a
final newline have equal messages when the serializations are equal and the
messages are newline-free. -/
theorem msg_tail_eq {a1 a2 m1 m2 : Str}
    (h : a1 ++ '\n' :: (m1 ++ ['\n']) = a2 ++ '\n' :: (m2 ++ ['\n']))
    (h1 : '\n' ∉ m1) (h2 : '\n' ∉ m2) : m1 = m2 := by
  have hr := congrArg List.reverse h
  simp only [List.reverse_append, List.reverse_cons, List.append_assoc,
    List.singleton_append, List.cons_append, List.nil_append] at hr
  injection hr with hr1 hr
  have ht := congrArg (List.takeWhile (fun c => c ≠ '\n')) hr
  rw [takeWhile_append_stop _ _ _ '\n'
        (fun x hx => by
          have hxm : x ∈ m1 := List.mem_reverse.mp hx
          simp only [ne_eq, decide_eq_true_eq]
          intro he
          exact h1 (he ▸ hxm))
        (by decide),
      takeWhile_append_stop _ _ _ '\n'
        (fun x hx => by
          have hxm : x ∈ m2 := List.mem_reverse.mp hx
          simp only [ne_eq, decide_eq_true_eq]
          intro he
          exact h2 (he ▸ hxm))
        (by decide)] at ht
  exact List.reverse_injective ht

/-- The serialization of a commit whose message is nonempty and does not end
in a newline splits as a prefix, a newline, the message, and a final
newline. -/
theorem serializeCommit_split (c : CommitObj) (hm : c.message ≠ [])
    (hl : c.message.getLast? ≠ some '\n') :
    ∃ a, serializeCommit c = a ++ '\n' :: (c.message ++ ['\n']) := by
  refine ⟨("tree ".data) ++ c.tree ++ ['\n']
    ++ (if c.parent ≠ [] then ("parent ".data) ++ c.parent ++ ['\n'] else [])
    ++ ("author ".data) ++ c.author ++ [' '] ++ intRepr c.authorUnix
      ++ [' '] ++ c.authorTz ++ ['\n']
    ++ ("committer ".data) ++ c.committer ++ [' '] ++ intRepr c.commitUnix
      ++ [' '] ++ c.commitTz ++ ['\n'], ?_⟩
  unfold serializeCommit
  rw [show (if c.message ≠ [] ∧ c.message.getLast? ≠ some '\n'
      then ['\n'] else ([] : Str)) = ['\n'] from if_pos ⟨hm, hl⟩]
  simp only [List.append_assoc, List.singleton_append, List.cons_append, List.nil_append]

/-- Equal commit serializations with newline-free nonempty messages have
equal messages. -/
theorem serializeCommit_msg_eq {c1 c2 : CommitObj}
    (h : serializeCommit c1 = serializeCommit c2)
    (hm1 : c1.message ≠ []) (hn1 : '\n' ∉ c1.message)
    (hm2 : c2.message ≠ []) (hn2 : '\n' ∉ c2.message) :
    c1.message = c2.message := by
  obtain ⟨a1, e1⟩ := serializeCommit_split c1 hm1 (getLast?_not_of_not_mem hn1)
  obtain ⟨a2, e2⟩ := serializeCommit_split c2 hm2 (getLast?_not_of_not_mem hn2)
  rw [e1, e2] at h
  exact msg_tail_eq h hn1 hn2

theorem pullMsg_ne_nil (k : Nat) (d : Str) : pullMsg k d ≠ [] := by
  intro hcontra
  have h2 := congrArg List.length hcontra
  simp [pullMsg] at h2

theorem newline_not_mem_pullMsg (k : Nat) {d : Str} (hd : '\n' ∉ d) :
    '\n' ∉ pullMsg k d := by
  intro hmem
  unfold pullMsg at hmem
  simp only [List.mem_append] at hmem
  rcases hmem with ((hmem | hmem) | hmem) | hmem
  · simp at hmem
  · exact newline_not_mem_decRepr k hmem
  · simp at hmem
  · exact hd hmem

/-- The generated commit message determines the counter when the date
strings have equal length. -/
theorem pullMsg_inj {k1 k2 : Nat} {d1 d2 : Str} (hlen : d1.length = d2.length)
    (h : pullMsg k1 d1 = pullMsg k2 d2) : k1 = k2 := by
  unfold pullMsg at h
  simp only [List.append_assoc] at h
  have h2 : decRepr k1 ++ (" at ".data ++ d1) = decRepr k2 ++ (" at ".data ++ d2) :=
    List.append_inj_right h rfl
  have h3 := congrArg List.length h2
  simp only [List.length_append] at h3
  have h4 : (decRepr k1).length = (decRepr k2).length := by
    simp only [hlen] at h3
    omega
  exact decRepr_inj (List.append_inj h2 h4).1

theorem blobContent_split (k : Nat) (r : Str) :
    blobContent k r
      = ("Pull request #".data ++ decRepr k) ++ '\n' :: ("Timestamp: ".data ++ (r ++ ['\n'])) := by
  unfold blobContent
  rw [show ("\nTimestamp: ".data : Str) = '\n' :: "Timestamp: ".data from rfl]
  simp only [List.append_assoc, List.cons_append, List.singleton_append]

/-- The generated blob content determines the counter, whatever the
timestamps are: the counter is the whole first line after the fixed
prefix. -/
theorem blobContent_inj {k1 k2 : Nat} {r1 r2 : Str}
    (h : blobContent k1 r1 = blobContent k2 r2) : k1 = k2 := by
  rw [blobContent_split, blobContent_split] at h
  have h2 := congrArg (List.takeWhile (fun c => c ≠ '\n')) h
  have hpre : ∀ k : Nat, ∀ x ∈ "Pull request #".data ++ decRepr k,
      (fun c => decide (c ≠ '\n')) x = true := by
    intro k x hx
    simp only [decide_eq_true_eq]
    rcases List.mem_append.mp hx with hx2 | hx2
    · intro he
      subst he
      simp at hx2
    · intro he
      exact newline_not_mem_decRepr k (he ▸ hx2)
  rw [takeWhile_append_stop _ _ _ '\n' (hpre k1) (by decide),
      takeWhile_append_stop _ _ _ '\n' (hpre k2) (by decide)] at h2
  exact decRepr_inj (List.append_inj_right h2 rfl)

/-- The generated file name determines the counter. -/
theorem pullFileName_inj {k1 k2 : Nat}
    (h : pullFileName k1 = pullFileName k2) : k1 = k2 := by
  unfold pullFileName at h
  simp only [List.append_assoc] at h
  have h2 : decRepr k1 ++ ".txt".data = decRepr k2 ++ ".txt".data :=
    List.append_inj_right h rfl
  have h3 := congrArg List.length h2
  simp only [List.length_append] at h3
  exact decRepr_inj (List.append_inj h2 (by omega)).1

/-- C1: for any two successful GenerateCommit calls with distinct counter
values k (in particular any two calls of one server process, since every
call advances the counter by one), the generated blob contents, per-pull
file names and commit messages are distinct, and hence, the hash being
injective on commit payloads, the returned and advertised main tips are
distinct hexes; each successful call leaves refs/heads/main at the
returned hex.  The date strings come from fixed-width formats, so they
have equal length and no newline. -/
theorem C1_distinct_advertised_tips
    (Hhex : Str → Str → Str)
    (hinj : ∀ c1 c2, Hhex ("commit".data) c1 = Hhex ("commit".data) c2 → c1 = c2)
    {sa sb sa2 sb2 : RepoState} {ta tc : TimeInfo} {fa fb : Faults}
    {hexa hexb : Str}
    (ha : genCommit Hhex sa ta fa = (.ok hexa, sa2))
    (hb : genCommit Hhex sb tc fb = (.ok hexb, sb2))
    (hk : sa.counter ≠ sb.counter)
    (hda : '\n' ∉ ta.msgDate) (hdb : '\n' ∉ tc.msgDate)
    (hdlen : ta.msgDate.length = tc.msgDate.length) :
    hexa ≠ hexb ∧
    blobContent (sa.counter + 1) ta.rfc3339 ≠ blobContent (sb.counter + 1) tc.rfc3339 ∧
    pullFileName (sa.counter + 1) ≠ pullFileName (sb.counter + 1) ∧
    pullMsg (sa.counter + 1) ta.msgDate ≠ pullMsg (sb.counter + 1) tc.msgDate ∧
    sa2.counter = sa.counter + 1 ∧ sb2.counter = sb.counter + 1 ∧
    alookup sa2.refs mainRef = some hexa ∧ alookup sb2.refs mainRef = some hexb := by
  obtain ⟨pha, pda, ptda, tba, _, _, _, _, _, hhexa, hca, hlooka, _⟩ := genCommit_ok_char ha
  obtain ⟨phb, pdb, ptdb, tbb, _, _, _, _, _, hhexb, hcb, hlookb, _⟩ := genCommit_ok_char hb
  have hkk : sa.counter + 1 ≠ sb.counter + 1 := fun hc => hk (by omega)
  refine ⟨?_, ?_, ?_, ?_, hca, hcb, hlooka, hlookb⟩
  · intro hhe
    rw [hhexa, hhexb] at hhe
    have hser := hinj _ _ hhe
    have hmsg := serializeCommit_msg_eq hser
      (pullMsg_ne_nil _ _) (newline_not_mem_pullMsg _ hda)
      (pullMsg_ne_nil _ _) (newline_not_mem_pullMsg _ hdb)
    exact hkk (pullMsg_inj hdlen hmsg)
  · exact fun hbe => hkk (blobContent_inj hbe)
  · exact fun hne2 => hkk (pullFileName_inj hne2)
  · exact fun hme => hkk (pullMsg_inj hdlen hme)

/-- Hash used by concrete witness runs: injective on commit payloads,
constant on other payloads. -/
def wHinj : Str → Str → Str :=
  fun ty c => if ty = "commit".data then 'z' :: c else "ab".data

/-- Constant hash for witness runs that do not need injectivity. -/
def wHhex : Str → Str → Str := fun _ _ => "ab".data

/-- A small repository state: main points at a commit whose tree is empty. -/
def wSt1 : RepoState :=
  { counter := 0,
    refs := [("refs/heads/main".data, "cc".data)],
    head := "ref: refs/heads/main".data,
    objects := [("cc".data, ("commit".data, "tree bb\n".data)),
                ("bb".data, ("tree".data, []))] }

/-- A repository state with no refs at all. -/
def wSt0 : RepoState := { counter := 0, refs := [], head := [], objects := [] }

def wTime : TimeInfo :=
  { rfc3339 := [], msgDate := "2024-01-20 10:00:00".data, unix := 0, tz := "+0000".data }

def wTimeB : TimeInfo :=
  { rfc3339 := [], msgDate := "2024-01-20 10:00:01".data, unix := 0, tz := "+0000".data }

def wRun1 : Except GenErr Str × RepoState := genCommit wHinj wSt1 wTime noFaults

def wHex1 : Str :=
  match wRun1.1 with
  | .ok h => h
  | .error _ => []

def wRun2 : Except GenErr Str × RepoState := genCommit wHinj wRun1.2 wTimeB noFaults

def wHex2 : Str :=
  match wRun2.1 with
  | .ok h => h
  | .error _ => []

set_option maxRecDepth 20000 in
theorem C1_distinct_advertised_tips_witness :
    wSt1.counter ≠ wRun1.2.counter ∧ wHex1 ≠ wHex2 :=
  have hq := C1_distinct_advertised_tips wHinj
    (fun c1 c2 hc => by
      simp only [wHinj, if_pos rfl] at hc
      exact (List.cons.injEq _ _ _ _).mp hc |>.2)
    (rfl : genCommit wHinj wSt1 wTime noFaults = (.ok wHex1, wRun1.2))
    (rfl : genCommit wHinj wRun1.2 wTimeB noFaults = (.ok wHex2, wRun2.2))
    (by decide) (by decide) (by decide) (by decide)
  ⟨by decide, hq.1⟩

/-- C3: whenever GenerateCommit fails at any step, it returns an error and
refs/heads/main (indeed the whole ref table and HEAD) is exactly as before
the call: the ref is only written after every object write has succeeded.
The counter increment performed at entry is not rolled back, so the failed
attempt still consumed one sequence number. -/
theorem C3_error_leaves_ref_unchanged {Hhex : Str → Str → Str}
    {st0 : RepoState} {t : TimeInfo} {f : Faults} {e : GenErr} {st4 : RepoState}
    (h : genCommit Hhex st0 t f = (.error e, st4)) :
    alookup st4.refs mainRef = alookup st0.refs mainRef ∧
    st4.refs = st0.refs ∧ st4.head = st0.head ∧
    st4.counter = st0.counter + 1 := by
  have h2 := genCommit_error_state h
  exact ⟨by rw [h2.1], h2.1, h2.2.1, h2.2.2⟩

theorem C3_error_leaves_ref_unchanged_witness :
    genCommit wHhex wSt0 wTime noFaults
      = (.error .mainNotFound, { counter := 1, refs := [], head := [], objects := [] }) ∧
    alookup ({ counter := 1, refs := [], head := [], objects := [] } : RepoState).refs mainRef
      = alookup wSt0.refs mainRef ∧
    ({ counter := 1, refs := [], head := [], objects := [] } : RepoState).counter
      = wSt0.counter + 1 :=
  have hq := C3_error_leaves_ref_unchanged
    (rfl : genCommit wHhex wSt0 wTime noFaults
      = (.error .mainNotFound, { counter := 1, refs := [], head := [], objects := [] }))
  ⟨rfl, hq.1, hq.2.2.2⟩

/-- C4: every successful GenerateCommit builds its new tree as exactly the
entries parsed from the parent commit's tree plus the single new entry for
pull_k.txt at mode 100644 holding the new blob's hash, removing nothing,
and the serialized tree object that is written lists the entries sorted in
bytewise ascending name order (the sort permutes the very list E plus the
new entry, so the serialized tree contains exactly those entries). -/
theorem C4_tree_monotone_growth {Hhex : Str → Str → Str} {st0 : RepoState}
    {t : TimeInfo} {f : Faults} {hex : Str} {st4 : RepoState}
    (h : genCommit Hhex st0 t f = (.ok hex, st4)) :
    (∃ parentHash parentData parentTreeData treeBytes,
      alookup (getRefs st0) mainRef = some parentHash ∧
      repoReadObject st0 parentHash = .ok parentData ∧
      repoReadObject st0 (findTreeHash (splitLines parentData)) = .ok parentTreeData ∧
      serEntries (sortEntries (parseTree parentTreeData ++
        [{ mode := "100644".data, name := pullFileName (st0.counter + 1),
           hash := Hhex ("blob".data) (blobContent (st0.counter + 1) t.rfc3339) }]))
        = some treeBytes ∧
      (Hhex ("tree".data) treeBytes, ("tree".data, treeBytes)) ∈ st4.objects) ∧
    (∀ es : List TreeEntry, (sortEntries es).Perm es ∧ (sortEntries es).Pairwise EntryLe) := by
  obtain ⟨ph, pd, ptd, tbs, h1, _, h3, h4, h5, _, _, _, h9⟩ := genCommit_ok_char h
  exact ⟨⟨ph, pd, ptd, tbs, h1, h3, h4, h5, h9⟩,
    fun es => ⟨sortEntries_perm es, sortEntries_sorted es⟩⟩

theorem C4_tree_monotone_growth_witness :
    genCommit wHhex wSt1 wTime noFaults
      = (.ok ("ab".data), (genCommit wHhex wSt1 wTime noFaults).2) ∧
    ((∃ parentHash parentData parentTreeData treeBytes,
      alookup (getRefs wSt1) mainRef = some parentHash ∧
      repoReadObject wSt1 parentHash = .ok parentData ∧
      repoReadObject wSt1 (findTreeHash (splitLines parentData)) = .ok parentTreeData ∧
      serEntries (sortEntries (parseTree parentTreeData ++
        [{ mode := "100644".data, name := pullFileName (wSt1.counter + 1),
           hash := wHhex ("blob".data) (blobContent (wSt1.counter + 1) wTime.rfc3339) }]))
        = some treeBytes ∧
      (wHhex ("tree".data) treeBytes, ("tree".data, treeBytes))
        ∈ (genCommit wHhex wSt1 wTime noFaults).2.objects) ∧
    (∀ es : List TreeEntry, (sortEntries es).Perm es ∧ (sortEntries es).Pairwise EntryLe)) :=
  ⟨rfl, C4_tree_monotone_growth
    (rfl : genCommit wHhex wSt1 wTime noFaults
      = (.ok ("ab".data), (genCommit wHhex wSt1 wTime noFaults).2))⟩

/-
  Byte-level object store (object.go Write, Read, ReadFull).  A store maps
  the hash hex to the stored file bytes; the on-disk path
  objects/hex[0:2]/hex[2:] is a bijective function of the hex once the hex
  has at least 2 bytes, and both slices panic below that length, which the
  readers and writer check explicitly below.  zlib is the abstract pair
  comp / dec, related by the round-trip hypothesis where a claim needs it.
-/

/-- Errors of the byte-level readers: the out-of-range hash slice, a
missing file, a zlib failure, and a missing header NUL. -/
inductive ReadErr where
  | panicShortHash
  | notFound
  | zlibError
  | noNullByte
deriving DecidableEq

/-- Write (object.go lines 41 to 79): hash the typed payload, then store
zlib(header then payload) at the hash-derived path; none models the panic
on a tree with a non-hex entry hash or on a hash shorter than the slice. -/
def objWrite (comp : Str → Str) (Hhex : Str → Str → Str)
    (store : List (Str × Str)) (o : GitObj) : Option (Str × List (Str × Str)) :=
  match serializeObj o with
  | none => none
  | some payload =>
    let hex := Hhex (typeStr o) payload
    if hex.length < 2 then none
    else some (hex, (hex, comp (objHeader (typeStr o) payload ++ payload)) :: store)

/-- Read (object.go lines 107 to 136): open the file at the hash-derived
path, decompress, and strip everything up to and including the first NUL. -/
def objRead (dec : Str → Option Str) (store : List (Str × Str)) (hash : Str) :
    Except ReadErr Str :=
  if hash.length < 2 then .error .panicShortHash
  else
    match alookup store hash with
    | none => .error .notFound
    | some fileBytes =>
      match dec fileBytes with
      | none => .error .zlibError
      | some data =>
        match dropThroughNul data with
        | none => .error .noNullByte
        | some content => .ok content

/-- ReadFull (object.go lines 82 to 104): like Read but keeps the framed
header. -/
def objReadFull (dec : Str → Option Str) (store : List (Str × Str)) (hash : Str) :
    Except ReadErr Str :=
  if hash.length < 2 then .error .panicShortHash
  else
    match alookup store hash with
    | none => .error .notFound
    | some fileBytes =>
      match dec fileBytes with
      | none => .error .zlibError
      | some data => .ok data

theorem nul_not_mem_typeStr (o : GitObj) : nulChar ∉ typeStr o := by
  intro hmem
  cases o with
  | blob c =>
    revert hmem
    show nulChar ∉ ("blob".data)
    decide
  | tree es =>
    revert hmem
    show nulChar ∉ ("tree".data)
    decide
  | commit c =>
    revert hmem
    show nulChar ∉ ("commit".data)
    decide

theorem framed_split (o : GitObj) (payload : Str) :
    objHeader (typeStr o) payload ++ payload
      = (typeStr o ++ ' ' :: decRepr payload.length) ++ nulChar :: payload := by
  unfold objHeader
  simp only [List.append_assoc, List.cons_append, List.singleton_append, List.nil_append]

/-- C8: object store round-trip.  For every object whose serialization
succeeds, writing it and reading it back by the returned hex yields exactly
its serialized payload, byte for byte, given that decompression inverts
compression (the zlib contract). -/
theorem C8_object_roundtrip
    (comp : Str → Str) (dec : Str → Option Str)
    (hinv : ∀ b, dec (comp b) = some b)
    (Hhex : Str → Str → Str) (store : List (Str × Str)) (o : GitObj)
    {payload hex : Str} {store2 : List (Str × Str)}
    (hser : serializeObj o = some payload)
    (hw : objWrite comp Hhex store o = some (hex, store2)) :
    objRead dec store2 hex = .ok payload := by
  unfold objWrite at hw
  rw [hser] at hw
  try dsimp only at hw
  split at hw
  · exact Option.noConfusion hw
  · rename_i hlen
    simp only [Option.some.injEq, Prod.mk.injEq] at hw
    obtain ⟨hw1, hw2⟩ := hw
    subst hw1
    subst hw2
    have hnul : nulChar ∉ typeStr o ++ ' ' :: decRepr payload.length := by
      intro hmem
      rcases List.mem_append.mp hmem with hmem2 | hmem2
      · exact nul_not_mem_typeStr o hmem2
      · rcases List.mem_cons.mp hmem2 with he | hmem3
        · exact absurd he (by decide)
        · exact nul_not_mem_decRepr _ hmem3
    unfold objRead
    rw [if_neg hlen]
    simp only [alookup]
    rw [if_pos trivial]
    try dsimp only
    rw [hinv]
    try dsimp only
    rw [framed_split o payload]
    try dsimp only
    rw [dropThroughNul_append hnul]

def wBlob : GitObj := .blob ("hi".data)

theorem C8_object_roundtrip_witness :
    serializeObj wBlob = some ("hi".data) ∧
    objRead some
        [("ab".data, objHeader ("blob".data) ("hi".data) ++ "hi".data)]
        ("ab".data)
      = .ok ("hi".data) :=
  ⟨rfl, C8_object_roundtrip (fun b => b) some (fun _ => rfl) wHhex [] wBlob
    (rfl : serializeObj wBlob = some ("hi".data))
    (rfl : objWrite (fun b => b) wHhex [] wBlob
      = some ("ab".data,
              [("ab".data, objHeader ("blob".data) ("hi".data) ++ "hi".data)]))⟩

/-- The readers are not total in the hash argument: the path slice
hash[0:2] panics exactly when the hash has fewer than 2 bytes, so the
precondition that every hash has length at least 2 is necessary and
sufficient for ReadFull (and Read) to avoid that branch. -/
theorem readFull_panic_iff
    (dec : Str → Option Str) (store : List (Str × Str)) (hash : Str) :
    (objReadFull dec store hash = .error .panicShortHash ↔ hash.length < 2) ∧
    (objRead dec store hash = .error .panicShortHash ↔ hash.length < 2) := by
  constructor
  · constructor
    · intro h
      by_contra hlen
      unfold objReadFull at h
      rw [if_neg hlen] at h
      split at h
      · exact ReadErr.noConfusion (Except.error.inj h)
      · split at h
        · exact ReadErr.noConfusion (Except.error.inj h)
        · exact Except.noConfusion h
    · intro hlen
      unfold objReadFull
      rw [if_pos hlen]
  · constructor
    · intro h
      by_contra hlen
      unfold objRead at h
      rw [if_neg hlen] at h
      split at h
      · exact ReadErr.noConfusion (Except.error.inj h)
      · split at h
        · exact ReadErr.noConfusion (Except.error.inj h)
        · split at h
          · exact ReadErr.noConfusion (Except.error.inj h)
          · exact Except.noConfusion h
    · intro hlen
      unfold objRead
      rw [if_pos hlen]

/-
  Packet-line codec (pktline Reader and Writer) and the upload-pack
  request parse loop (protocol HandleRequest).
-/

/-- Errors of the pkt-line reader: a short or non-hex length header, the
unsupported delimiter and response-end markers, a length below 4, short
data, and exhausted recursion fuel (unreachable when the fuel bounds the
input length, since every frame consumes at least 4 bytes). -/
inductive PktErr where
  | shortHeader
  | badHeader
  | delimiter
  | responseEnd
  | badLength
  | shortData
  | outOfFuel
deriving DecidableEq

/-- Value of the longest hex-digit prefix, folded onto an accumulator; the
semantics of fmt.Sscanf with a hex verb on the 4 header bytes. -/
def scanHexPrefix : Str → Nat → Nat
  | [], acc => acc
  | c :: t, acc =>
    match hexCharVal c with
    | none => acc
    | some v => scanHexPrefix t (16 * acc + v)

/-- Parse the 4-byte length header: at least one hex digit must be present
(otherwise Sscanf errors); whitespace skipping of Sscanf on pathological
headers is not modelled. -/
def scanHex4 (l : Str) : Option Nat :=
  match l with
  | [] => none
  | c :: t =>
    match hexCharVal c with
    | none => none
    | some v => some (scanHexPrefix t v)

/-- Read one pkt-line (pktline Reader.Read): none is the flush packet, a
line carries its payload and the remaining input. -/
def pktRead (data : Str) : Except PktErr (Option (Str × Str)) :=
  if data.length < 4 then .error .shortHeader
  else
    let rest := data.drop 4
    match scanHex4 (data.take 4) with
    | none => .error .badHeader
    | some n =>
      if n = 0 then .ok none
      else if n = 1 then .error .delimiter
      else if n = 2 then .error .responseEnd
      else if n < 4 then .error .badLength
      else if rest.length < n - 4 then .error .shortData
      else .ok (some (rest.take (n - 4), rest.drop (n - 4)))

/-- Trim one trailing newline (pktline Reader.ReadString). -/
def trimNl (l : Str) : Str :=
  if l.getLast? = some '\n' then l.dropLast else l

/-- What the request parse loop accumulates (HandleRequest lines 120
to 122). -/
structure ParseRes where
  wants : List Str
  haves : List Str
  caps : List Str
deriving DecidableEq

/-- Go strings.SplitN with a single-space separator and limit 2: the part
before the first space, and the part after it when a space exists. -/
def splitN2 (s : Str) : Str × Option Str :=
  match s.dropWhile (fun c => c ≠ ' ') with
  | [] => (s.takeWhile (fun c => c ≠ ' '), none)
  | _ :: after => (s.takeWhile (fun c => c ≠ ' '), some after)

/-- Go strings.Split with a single-space separator. -/
def splitSp (s : Str) : List Str := splitOnChar ' ' s

/-- The request parse loop (HandleRequest lines 124 to 148): read lines
until flush or a done line; a want line contributes its first field to the
wants and, when it has a second field and no capabilities have been set
yet, its remaining fields become the capabilities; a have line is
accumulated and otherwise ignored; unknown lines are skipped. -/
def parseReqGo : Nat → Str → List Str → List Str → List Str → Except PktErr ParseRes
  | 0, _, _, _, _ => .error .outOfFuel
  | fuel + 1, data, w, h, c =>
    match pktRead data with
    | .error e => .error e
    | .ok none => .ok ⟨w, h, c⟩
    | .ok (some (payload, rest)) =>
      let line := trimNl payload
      if ("want ".data).isPrefixOf line then
        let parts := splitN2 (line.drop 5)
        parseReqGo fuel rest (w ++ [parts.1]) h
          (match parts.2 with
           | some capsStr => if c = [] then splitSp capsStr else c
           | none => c)
      else if ("have ".data).isPrefixOf line then
        parseReqGo fuel rest w (h ++ [line.drop 5]) c
      else if line = "done".data then .ok ⟨w, h, c⟩
      else parseReqGo fuel rest w h c

/-- Parse an upload-pack request body.  Fuel is one more than the length;
every frame consumes at least 4 bytes, so the fuel never runs out. -/
def parseReq (data : Str) : Except PktErr ParseRes :=
  parseReqGo (data.length + 1) data [] [] []

/-- The client selected side-band framing (HandleRequest lines 158
to 165). -/
def wantsSideBand (caps : List Str) : Bool :=
  caps.any (fun c => c = "side-band".data || c = "side-band-64k".data)

/-- The pkt-line payloads the parse loop consumes, in order, stopping
before the flush packet or a done line (the view of the request the loop
actually processes). -/
def linesOfGo : Nat → Str → Except PktErr (List Str)
  | 0, _ => .error .outOfFuel
  | fuel + 1, data =>
    match pktRead data with
    | .error e => .error e
    | .ok none => .ok []
    | .ok (some (payload, rest)) =>
      let line := trimNl payload
      if line = "done".data then .ok []
      else
        match linesOfGo fuel rest with
        | .error e => .error e
        | .ok ls => .ok (line :: ls)

def linesOf (data : Str) : Except PktErr (List Str) :=
  linesOfGo (data.length + 1) data

/-- Pure per-line folding of the parse loop over an already decoded line
list. -/
def lineFold : List Str → List Str → List Str → List Str → ParseRes
  | [], w, h, c => ⟨w, h, c⟩
  | l :: t, w, h, c =>
    if ("want ".data).isPrefixOf l then
      lineFold t (w ++ [(splitN2 (l.drop 5)).1]) h
        (match (splitN2 (l.drop 5)).2 with
         | some capsStr => if c = [] then splitSp capsStr else c
         | none => c)
    else if ("have ".data).isPrefixOf l then
      lineFold t w (h ++ [l.drop 5]) c
    else lineFold t w h c

theorem isPrefixOf_length_le {l1 l2 : Str} (h : l1.isPrefixOf l2 = true) :
    l1.length ≤ l2.length :=
  (List.isPrefixOf_iff_prefix.mp h).length_le

theorem want_prefix_ne_done {l : Str} (h : ("want ".data).isPrefixOf l = true) :
    l ≠ "done".data := by
  intro he
  have h2 := isPrefixOf_length_le h
  rw [he] at h2
  simp at h2

theorem have_prefix_ne_done {l : Str} (h : ("have ".data).isPrefixOf l = true) :
    l ≠ "done".data := by
  intro he
  have h2 := isPrefixOf_length_le h
  rw [he] at h2
  simp at h2

/-- The parse loop is the per-line fold over the decoded line sequence. -/
theorem parseReqGo_eq_fold : ∀ (fuel : Nat) (data : Str) (w h c : List Str),
    parseReqGo fuel data w h c
      = (linesOfGo fuel data).map (fun ls => lineFold ls w h c) := by
  intro fuel
  induction fuel with
  | zero => intro data w h c; rfl
  | succ fuel ih =>
    intro data w h c
    unfold parseReqGo linesOfGo
    cases hp : pktRead data with
    | error e => rfl
    | ok o =>
      cases o with
      | none => rfl
      | some pr =>
        obtain ⟨payload, rest⟩ := pr
        dsimp only
        by_cases hw : ("want ".data).isPrefixOf (trimNl payload)
        · rw [if_pos hw, if_neg (want_prefix_ne_done hw), ih]
          cases hrec : linesOfGo fuel rest with
          | error e => rfl
          | ok ls =>
            simp only [Except.map, lineFold, hw, if_pos]
        · by_cases hh : ("have ".data).isPrefixOf (trimNl payload)
          · rw [if_neg hw, if_pos hh, if_neg (have_prefix_ne_done hh), ih]
            cases hrec : linesOfGo fuel rest with
            | error e => rfl
            | ok ls =>
              simp only [Except.map, lineFold, hw, hh, if_pos, if_neg, Bool.false_eq_true,
                not_false_eq_true]
          · by_cases hd : trimNl payload = "done".data
            · rw [if_neg hw, if_neg hh, if_pos hd, if_pos hd]
              rfl
            · rw [if_neg hw, if_neg hh, if_neg hd, if_neg hd, ih]
              cases hrec : linesOfGo fuel rest with
              | error e => rfl
              | ok ls =>
                simp only [Except.map, lineFold, hw, hh, if_neg, Bool.false_eq_true,
                  not_false_eq_true]

theorem splitSp_ne_nil (s : Str) : splitSp s ≠ [] := by
  unfold splitSp
  cases s with
  | nil => simp [splitOnChar]
  | cons c t =>
    unfold splitOnChar
    split
    · simp
    · split <;> simp

/-- Once capabilities are nonempty the fold never changes them. -/
theorem lineFold_caps_frozen : ∀ (ls w h c), c ≠ [] → (lineFold ls w h c).caps = c := by
  intro ls
  induction ls with
  | nil => intro w h c _; rfl
  | cons l t ih =>
    intro w h c hc
    simp only [lineFold]
    repeat' split
    all_goals first
      | exact ih _ _ _ hc
      | exact absurd (by assumption : c = []) hc

/-- The first want line whose remainder has a second field determines the
capabilities of the whole parse. -/
def firstCapsOf : List Str → List Str
  | [] => []
  | l :: t =>
    if ("want ".data).isPrefixOf l then
      match (splitN2 (l.drop 5)).2 with
      | some capsStr => splitSp capsStr
      | none => firstCapsOf t
    else firstCapsOf t

theorem lineFold_caps_eq_firstCaps : ∀ (ls w h), (lineFold ls w h []).caps = firstCapsOf ls := by
  intro ls
  induction ls with
  | nil => intro w h; rfl
  | cons l t ih =>
    intro w h
    simp only [lineFold, firstCapsOf]
    by_cases hw : ("want ".data).isPrefixOf l
    · rw [if_pos hw, if_pos hw]
      cases hsp : (splitN2 (l.drop 5)).2 with
      | none => exact ih _ _
      | some capsStr =>
        dsimp only
        rw [if_pos trivial]
        exact lineFold_caps_frozen _ _ _ _ (splitSp_ne_nil capsStr)
    · rw [if_neg hw, if_neg hw]
      split
      · exact ih _ _
      · exact ih _ _

/-- The wants and the capabilities of the fold do not depend on the have
lines nor on the accumulated haves. -/
theorem lineFold_ignores_haves :
    ∀ (ls w c h h2),
      (lineFold ls w h c).wants
          = (lineFold (ls.filter fun l => !(("have ".data).isPrefixOf l)) w h2 c).wants ∧
      (lineFold ls w h c).caps
          = (lineFold (ls.filter fun l => !(("have ".data).isPrefixOf l)) w h2 c).caps := by
  intro ls
  induction ls with
  | nil => intro w c h h2; exact ⟨rfl, rfl⟩
  | cons l t ih =>
    intro w c h h2
    by_cases hh : ("have ".data).isPrefixOf l
    · have hwant : ¬ ("want ".data).isPrefixOf l = true := by
        intro hw
        have h3 := List.isPrefixOf_iff_prefix.mp hw
        have h4 := List.isPrefixOf_iff_prefix.mp hh
        have h5 := List.prefix_of_prefix_length_le h3 h4 (by rfl)
        have h6 := h5.eq_of_length (by rfl)
        simp at h6
      rw [List.filter_cons_of_neg (by simp [hh])]
      simp only [lineFold]
      rw [if_neg hwant, if_pos hh]
      exact ih _ _ _ h2
    · rw [List.filter_cons_of_pos (by simp [hh])]
      simp only [lineFold]
      by_cases hw : ("want ".data).isPrefixOf l
      · rw [if_pos hw, if_pos hw]
        exact ih _ _ _ h2
      · rw [if_neg hw, if_neg hw, if_neg hh, if_neg hh]
        exact ih _ _ _ h2

/-
  Packfile construction (packfile Writer and the protocol object walk).
-/

/-- Errors of the pack walk: exhausted fuel (unreachable for fuel above the
number of distinct reachable objects), a reader error, a frame without NUL,
and an unknown object type. -/
inductive PackErr where
  | fuel
  | read (e : ReadErr)
  | invalidFormat
  | unknownType
deriving DecidableEq

/-- Hashes a commit payload depends on, in line order: the tree of every
tree line and the parent of every parent line
(protocol addCommitDependencies). -/
def commitDepHashes (content : Str) : List Str :=
  (splitOnChar '\n' content).filterMap fun line =>
    if ("tree ".data).isPrefixOf line then some (line.drop 5)
    else if ("parent ".data).isPrefixOf line then some (line.drop 7)
    else none

/-- Hashes of every entry of a tree payload (protocol addTreeDependencies). -/
def treeDepHashes (content : Str) : List Str :=
  (parseTree content).map (fun e => e.hash)

/-- The depth-first object walk (protocol addObjectToPack, lines 233 to 277,
iterated over a hash list as createPackfile does over the wants): a visited
hash contributes nothing; otherwise the object is read, its dependencies
are walked first, and the object itself is appended after them.  The fuel
argument only bounds the recursion depth. -/
def addObjs (dec : Str → Option Str) (store : List (Str × Str)) :
    Nat → List Str → List Str → Except PackErr (List Str × List (Nat × Str))
  | _, [], visited => .ok (visited, [])
  | 0, _ :: _, _ => .error .fuel
  | fuel + 1, hash :: rest, visited =>
    if visited.contains hash then addObjs dec store fuel rest visited
    else
      match objReadFull dec store hash with
      | .error e => .error (.read e)
      | .ok data =>
        match splitAtNul data with
        | none => .error .invalidFormat
        | some hc =>
          if ("commit ".data).isPrefixOf hc.1 then
            match addObjs dec store fuel (commitDepHashes hc.2) (hash :: visited) with
            | .error e => .error e
            | .ok (v3, objs1) =>
              match addObjs dec store fuel rest v3 with
              | .error e => .error e
              | .ok (v4, objs2) => .ok (v4, objs1 ++ [(1, hc.2)] ++ objs2)
          else if ("tree ".data).isPrefixOf hc.1 then
            match addObjs dec store fuel (treeDepHashes hc.2) (hash :: visited) with
            | .error e => .error e
            | .ok (v3, objs1) =>
              match addObjs dec store fuel rest v3 with
              | .error e => .error e
              | .ok (v4, objs2) => .ok (v4, objs1 ++ [(2, hc.2)] ++ objs2)
          else if ("blob ".data).isPrefixOf hc.1 then
            match addObjs dec store fuel rest (hash :: visited) with
            | .error e => .error e
            | .ok (v3, objs2) => .ok (v3, (3, hc.2) :: objs2)
          else .error .unknownType

/-- The typed contents the pack will carry, in append order
(createPackfile, lines 218 to 230). -/
def createPackObjs (dec : Str → Option Str) (store : List (Str × Str))
    (fuel : Nat) (wants : List Str) : Except PackErr (List (Nat × Str)) :=
  match addObjs dec store fuel wants [] with
  | .error e => .error e
  | .ok vo => .ok vo.2

/-- Variable-length type and size header bytes (packfile Writer.AddObject):
the accumulated header byte is emitted with the continuation bit while size
bits remain, then the final byte. -/
def varintBytes : Nat → Nat → Nat → List Nat
  | 0, header, _ => [header]
  | fuel + 1, header, size =>
    if size > 0 then (header ||| 128) :: varintBytes fuel (size &&& 127) (size >>> 7)
    else [header]

/-- One packed object: varint header then the compressed payload. -/
def objEncode (comp : Str → Str) (ty : Nat) (content : Str) : Str :=
  let size := content.length
  (varintBytes size ((ty <<< 4) ||| (size &&& 15)) (size >>> 4)).map Char.ofNat
    ++ comp content

/-- Big-endian 32-bit bytes. -/
def be32 (n : Nat) : List Nat :=
  [n >>> 24 &&& 255, n >>> 16 &&& 255, n >>> 8 &&& 255, n &&& 255]

/-- Assembled packfile (packfile NewWriter, AddObject, Finalize): the PACK
magic, version 2, the object count patched into the header, every encoded
object, then the abstract SHA-1 of everything before the trailer. -/
def packFinalize (Hpk : Str → Str) (comp : Str → Str) (objs : List (Nat × Str)) : Str :=
  let base := "PACK".data ++ (be32 2).map Char.ofNat ++ (be32 objs.length).map Char.ofNat
    ++ (objs.map fun o => objEncode comp o.1 o.2).flatten
  base ++ Hpk base

/-- Packfile bytes for a want list (sendPackfile and createPackfile). -/
def createPackfile (Hpk : Str → Str) (comp : Str → Str) (dec : Str → Option Str)
    (store : List (Str × Str)) (fuel : Nat) (wants : List Str) : Except PackErr Str :=
  match addObjs dec store fuel wants [] with
  | .error e => .error e
  | .ok vo => .ok (packFinalize Hpk comp vo.2)

/-- Four lowercase hex digits, fmt %04x for values below 65536; every frame
length is at most 65520. -/
def hexLen4 (n : Nat) : Str :=
  [hexDigitChar (n >>> 12 &&& 15), hexDigitChar (n >>> 8 &&& 15),
   hexDigitChar (n >>> 4 &&& 15), hexDigitChar (n &&& 15)]

/-- One pkt-line frame (pktline Writer.Write); an empty payload is a flush.
Write fails above 65516 payload bytes, but every payload this server frames
is at most 65516 bytes, so the failure branch is unreachable and omitted. -/
def pktFrame (payload : Str) : Str :=
  if payload = [] then "0000".data else hexLen4 (payload.length + 4) ++ payload

/-- Side-band chunking of the packfile (sendPackfileWithSideband, lines 193
to 215): frames of channel byte 1 plus at most 65515 pack bytes; fuel is
one more than the pack length and never runs out. -/
def chunkPack : Nat → Str → Str
  | 0, _ => []
  | fuel + 1, pack =>
    if pack = [] then []
    else pktFrame (Char.ofNat 1 :: pack.take 65515) ++ chunkPack fuel (pack.drop 65515)

/-- Errors HandleRequest can surface. -/
inductive UpErr where
  | pkt (e : PktErr)
  | pack (e : PackErr)
deriving DecidableEq

/-- The response phase after parsing (HandleRequest lines 150 to 175): one
NAK pkt-line, then the packfile, side-band framed with a trailing flush
when the client selected it and raw otherwise.  It depends only on the
wants and the capabilities; the haves are never consulted.  The result is
the bytes written so far paired with an optional error (the NAK is written
before the packfile is built, so a pack error leaves the NAK written). -/
def respond (Hpk : Str → Str) (comp : Str → Str) (dec : Str → Option Str)
    (store : List (Str × Str)) (fuel : Nat) (wants caps : List Str) :
    Str × Option UpErr :=
  let nak := pktFrame ("NAK\n".data)
  if wantsSideBand caps then
    match createPackfile Hpk comp dec store fuel wants with
    | .error e => (nak, some (.pack e))
    | .ok pack => (nak ++ chunkPack (pack.length + 1) pack ++ "0000".data, none)
  else
    match createPackfile Hpk comp dec store fuel wants with
    | .error e => (nak, some (.pack e))
    | .ok pack => (nak ++ pack, none)

/-- HandleRequest (protocol, lines 115 to 175): parse the body, then
respond from the wants and capabilities. -/
def handleRequest (Hpk : Str → Str) (comp : Str → Str) (dec : Str → Option Str)
    (store : List (Str × Str)) (fuel : Nat) (body : Str) : Str × Option UpErr :=
  match parseReq body with
  | .error e => ([], some (.pkt e))
  | .ok res => respond Hpk comp dec store fuel res.wants res.caps

/-- The walk as the claim words it: de-duplicating depth-first walk that
appends each object at the moment the walk first reaches it, before its
dependencies' outputs.  Stated for comparison with addObjs, the walk the
source implements. -/
def addObjsPre (dec : Str → Option Str) (store : List (Str × Str)) :
    Nat → List Str → List Str → Except PackErr (List Str × List (Nat × Str))
  | _, [], visited => .ok (visited, [])
  | 0, _ :: _, _ => .error .fuel
  | fuel + 1, hash :: rest, visited =>
    if visited.contains hash then addObjsPre dec store fuel rest visited
    else
      match objReadFull dec store hash with
      | .error e => .error (.read e)
      | .ok data =>
        match splitAtNul data with
        | none => .error .invalidFormat
        | some hc =>
          if ("commit ".data).isPrefixOf hc.1 then
            match addObjsPre dec store fuel (commitDepHashes hc.2) (hash :: visited) with
            | .error e => .error e
            | .ok (v3, objs1) =>
              match addObjsPre dec store fuel rest v3 with
              | .error e => .error e
              | .ok (v4, objs2) => .ok (v4, (1, hc.2) :: (objs1 ++ objs2))
          else if ("tree ".data).isPrefixOf hc.1 then
            match addObjsPre dec store fuel (treeDepHashes hc.2) (hash :: visited) with
            | .error e => .error e
            | .ok (v3, objs1) =>
              match addObjsPre dec store fuel rest v3 with
              | .error e => .error e
              | .ok (v4, objs2) => .ok (v4, (2, hc.2) :: (objs1 ++ objs2))
          else if ("blob ".data).isPrefixOf hc.1 then
            match addObjsPre dec store fuel rest (hash :: visited) with
            | .error e => .error e
            | .ok (v3, objs2) => .ok (v3, (3, hc.2) :: objs2)
          else .error .unknownType

/-- First-reach append order over a want list, following the claim's words. -/
def createPackObjsPre (dec : Str → Option Str) (store : List (Str × Str))
    (fuel : Nat) (wants : List Str) : Except PackErr (List (Nat × Str)) :=
  match addObjsPre dec store fuel wants [] with
  | .error e => .error e
  | .ok vo => .ok vo.2

/-- Pack object type decided from the loose header. -/
def packObjType (header : Str) : Nat :=
  if ("commit ".data).isPrefixOf header then 1
  else if ("tree ".data).isPrefixOf header then 2
  else 3

def c5TreeData : Str := "100644 a.txt".data ++ nulChar :: List.replicate 20 (Char.ofNat 0)

def c5BlobKey : Str := List.replicate 40 '0'

def c5Store : List (Str × Str) :=
  [("cc".data, "commit 9".data ++ nulChar :: "tree bb\n".data),
   ("bb".data, "tree 33".data ++ nulChar :: c5TreeData),
   (c5BlobKey, "blob 1".data ++ nulChar :: "x".data)]

/-- C5 counterexample: on a store with one commit whose tree holds one blob,
the source walk appends the blob first and the wanted commit last, while
the claimed first-reach order would append the wanted commit first; the two
orders differ. -/
theorem C5_counterexample :
    createPackObjs some c5Store 10 ["cc".data]
      = .ok [(3, "x".data), (2, c5TreeData), (1, "tree bb\n".data)] ∧
    createPackObjsPre some c5Store 10 ["cc".data]
      = .ok [(1, "tree bb\n".data), (2, c5TreeData), (3, "x".data)] ∧
    ([(3, "x".data), (2, c5TreeData), (1, "tree bb\n".data)] : List (Nat × Str))
      ≠ [(1, "tree bb\n".data), (2, c5TreeData), (3, "x".data)] := by
  refine ⟨by decide, by decide, by decide⟩

/-- C5 amended: the walk de-duplicates by hex and is depth-first, but each
object is appended when the walk finishes it, not when it first reaches
it: the output for a fresh hash is its dependencies' objects followed by
the object itself (post-order). -/
theorem C5_postorder_append {dec : Str → Option Str} {store : List (Str × Str)}
    {fuel : Nat} {hash : Str} {v v2 : List Str} {objs : List (Nat × Str)}
    (hnv : v.contains hash = false)
    (h : addObjs dec store (fuel + 1) [hash] v = .ok (v2, objs)) :
    ∃ data hc deps,
      objReadFull dec store hash = .ok data ∧
      splitAtNul data = some hc ∧
      objs = deps ++ [(packObjType hc.1, hc.2)] := by
  simp only [addObjs] at h
  rw [hnv] at h
  simp only [Bool.false_eq_true, if_false] at h
  cases hread : objReadFull dec store hash with
  | error e =>
    rw [hread] at h
    exact Except.noConfusion h
  | ok data =>
    rw [hread] at h
    dsimp only at h
    cases hsplit : splitAtNul data with
    | none =>
      rw [hsplit] at h
      exact Except.noConfusion h
    | some hc =>
      rw [hsplit] at h
      dsimp only at h
      refine ⟨data, hc, ?_⟩
      by_cases hcmt : ("commit ".data).isPrefixOf hc.1
      · rw [if_pos hcmt] at h
        cases hdeps : addObjs dec store fuel (commitDepHashes hc.2) (hash :: v) with
        | error e =>
          rw [hdeps] at h
          exact Except.noConfusion h
        | ok vo =>
          rw [hdeps] at h
          obtain ⟨v3, objs1⟩ := vo
          try simp only [addObjs] at h
          simp only [Except.ok.injEq, Prod.mk.injEq] at h
          refine ⟨objs1, rfl, hsplit, ?_⟩
          rw [← h.2, packObjType, if_pos hcmt]
          first | rfl | simp
      · rw [if_neg hcmt] at h
        by_cases htr : ("tree ".data).isPrefixOf hc.1
        · rw [if_pos htr] at h
          cases hdeps : addObjs dec store fuel (treeDepHashes hc.2) (hash :: v) with
          | error e =>
            rw [hdeps] at h
            exact Except.noConfusion h
          | ok vo =>
            rw [hdeps] at h
            obtain ⟨v3, objs1⟩ := vo
            try simp only [addObjs] at h
            simp only [Except.ok.injEq, Prod.mk.injEq] at h
            refine ⟨objs1, rfl, hsplit, ?_⟩
            rw [← h.2, packObjType, if_neg hcmt, if_pos htr]
            first | rfl | simp
        · rw [if_neg htr] at h
          by_cases hbl : ("blob ".data).isPrefixOf hc.1
          · rw [if_pos hbl] at h
            try simp only [addObjs] at h
            simp only [Except.ok.injEq, Prod.mk.injEq] at h
            refine ⟨[], rfl, hsplit, ?_⟩
            rw [← h.2, packObjType, if_neg hcmt, if_neg htr]
            first | rfl | simp
          · rw [if_neg hbl] at h
            exact Except.noConfusion h

set_option maxRecDepth 20000 in
theorem C5_postorder_append_witness :
    ([] : List Str).contains ("cc".data) = false ∧
    (∃ data hc deps,
      objReadFull some c5Store ("cc".data) = .ok data ∧
      splitAtNul data = some hc ∧
      [(3, "x".data), (2, c5TreeData), (1, "tree bb\n".data)]
        = deps ++ [(packObjType hc.1, hc.2)]) :=
  ⟨by decide,
    C5_postorder_append
      (by decide : ([] : List Str).contains ("cc".data) = false)
      (by decide : addObjs some c5Store (9 + 1) [("cc".data)] []
        = .ok ([c5BlobKey, "bb".data, "cc".data],
               [(3, "x".data), (2, c5TreeData), (1, "tree bb\n".data)]))⟩

/-
  CLAIM C6 — which want line's capabilities are honored.
-/

/-- The capability tokens as the claim reads them: the tokens following
the hex on the FIRST want line of the request, empty when that first want
line carries none. -/
def firstWantLineCaps : List Str → List Str
  | [] => []
  | l :: t =>
    if ("want ".data).isPrefixOf l then
      match (splitN2 (l.drop 5)).2 with
      | some capsStr => splitSp capsStr
      | none => []
    else firstWantLineCaps t

/-- A request whose first want line carries no capabilities while its
second want line asks for side-band. -/
def c6Body : Str := ("000cwant aa\n0016want bb side-band\n0009done\n").data

/-- C6 counterexample: the first want line of c6Body carries no
capability tokens, so under the claim the capability set would be empty
and side-band would be off; the parse loop instead takes the side-band
capability from the second want line, and the side-band framing decision
flips accordingly. -/
theorem C6_counterexample :
    linesOf c6Body = .ok ["want aa".data, "want bb side-band".data] ∧
    firstWantLineCaps ["want aa".data, "want bb side-band".data] = [] ∧
    parseReq c6Body = .ok ⟨["aa".data, "bb".data], [], ["side-band".data]⟩ ∧
    wantsSideBand ["side-band".data] = true ∧
    wantsSideBand [] = false :=
  ⟨by decide, by decide, by decide, by decide, by decide⟩

/-- C6 amended: the capabilities the parse honors are those of the first
want line that carries any capability tokens — the fold freezes the
capability set at the first nonempty one — not necessarily the first want
line of the request. -/
theorem C6_caps_from_first_caps_line {body : Str} {r : ParseRes} {ls : List Str}
    (hp : parseReq body = .ok r) (hl : linesOf body = .ok ls) :
    r.caps = firstCapsOf ls := by
  unfold parseReq at hp
  rw [parseReqGo_eq_fold] at hp
  unfold linesOf at hl
  rw [hl] at hp
  simp only [Except.map, Except.ok.injEq] at hp
  rw [← hp]
  exact lineFold_caps_eq_firstCaps ls [] []

theorem C6_caps_from_first_caps_line_witness :
    (⟨["aa".data, "bb".data], [], ["side-band".data]⟩ : ParseRes).caps
      = firstCapsOf ["want aa".data, "want bb side-band".data] :=
  C6_caps_from_first_caps_line
    (by decide : parseReq c6Body
      = .ok ⟨["aa".data, "bb".data], [], ["side-band".data]⟩)
    (by decide : linesOf c6Body
      = .ok ["want aa".data, "want bb side-band".data])

/-
  CLAIM C7 — have lines never influence the response.
-/

/-- Packfile trailer hash used by concrete protocol runs. -/
def wHpk : Str → Str := fun _ => []

def c7Body1 : Str := ("000cwant aa\n0009done\n").data

def c7Body2 : Str := ("000cwant aa\n000chave bb\n0009done\n").data

/-- C7: two upload-pack request bodies whose pkt-line payloads agree after
the have lines are dropped (same want lines with their capabilities, same
terminator) produce byte-identical output from HandleRequest: the NAK
pkt-line, the side-band decision and the packfile bytes are all
independent of the haves, which the parse accumulates but the response
never consults. -/
theorem C7_haves_never_influence_response {Hpk comp : Str → Str}
    {dec : Str → Option Str} {store : List (Str × Str)} {fuel : Nat}
    {b1 b2 : Str} {ls1 ls2 : List Str}
    (h1 : linesOf b1 = .ok ls1) (h2 : linesOf b2 = .ok ls2)
    (hfil : ls1.filter (fun l => !(("have ".data).isPrefixOf l))
          = ls2.filter (fun l => !(("have ".data).isPrefixOf l))) :
    handleRequest Hpk comp dec store fuel b1
      = handleRequest Hpk comp dec store fuel b2 := by
  have e1 : parseReq b1 = .ok (lineFold ls1 [] [] []) := by
    unfold parseReq
    rw [parseReqGo_eq_fold]
    unfold linesOf at h1
    rw [h1]
    rfl
  have e2 : parseReq b2 = .ok (lineFold ls2 [] [] []) := by
    unfold parseReq
    rw [parseReqGo_eq_fold]
    unfold linesOf at h2
    rw [h2]
    rfl
  unfold handleRequest
  rw [e1, e2]
  dsimp only
  have q1 := lineFold_ignores_haves ls1 [] [] [] []
  have q2 := lineFold_ignores_haves ls2 [] [] [] []
  rw [q1.1, q1.2, q2.1, q2.2, hfil]

theorem C7_haves_never_influence_response_witness :
    linesOf c7Body2 = .ok ["want aa".data, "have bb".data] ∧
    handleRequest wHpk (fun b => b) some [] 5 c7Body1
      = handleRequest wHpk (fun b => b) some [] 5 c7Body2 :=
  ⟨by decide,
    C7_haves_never_influence_response
      (by decide : linesOf c7Body1 = .ok [("want aa".data)])
      (by decide : linesOf c7Body2 = .ok ["want aa".data, "have bb".data])
      (by decide)⟩

/-
  CLAIM C9 — pushes are rejected.
-/

/-- An HTTP request as the handlers see it: method, exact URL path, body. -/
structure HttpRequest where
  method : Str
  path : Str
  body : Str

/-- An HTTP response: status code and body bytes. -/
structure HttpResponse where
  status : Nat
  body : Str
deriving DecidableEq

/-- Go http.Error: write the message followed by a newline, with the given
status code. -/
def httpError (msg : Str) (code : Nat) : HttpResponse :=
  ⟨code, msg ++ ['\n']⟩

/-- The handlers the mux of Handler (server.go lines 28 to 40) dispatches
to. -/
inductive RouteTarget where
  | infoRefs
  | uploadPack
  | receivePack
  | static
deriving DecidableEq

/-- The mux of Handler: the three exact smart-HTTP paths, every other path
to the static handler (patterns without a trailing slash match exactly). -/
def route (path : Str) : RouteTarget :=
  if path = "/info/refs".data then .infoRefs
  else if path = "/git-upload-pack".data then .uploadPack
  else if path = "/git-receive-pack".data then .receivePack
  else .static

/-- handleReceivePack (server.go lines 57 to 61): reject the push with
http.Error 403 "Push access denied", touching no repository state; the
request's method and body are never inspected. -/
def handleReceivePack (st : RepoState) (r : HttpRequest) :
    HttpResponse × RepoState :=
  (httpError ("Push access denied".data) 403, st)

/-- C9: the path /git-receive-pack routes to handleReceivePack, and that
handler answers every request — any method, any body — with status 403 and
body "Push access denied" plus newline, returning the repository state
unchanged (no object and no ref is modified). -/
theorem C9_receive_pack_always_403 :
    route ("/git-receive-pack".data) = .receivePack ∧
    ∀ (st : RepoState) (method body : Str),
      handleReceivePack st ⟨method, "/git-receive-pack".data, body⟩
        = (⟨403, ("Push access denied".data) ++ ['\n']⟩, st) :=
  ⟨by decide, fun st method body => rfl⟩

/-
  CLAIM C10 — HandleRequest is not total over well-formed bodies.
-/

/-- A well-formed pkt-line body whose single want line "want " yields the
empty string as the want hash. -/
def c10Body : Str := ("000awant \n0009done\n").data

/-- C10: HandleRequest is not total over well-formed pkt-line bodies: the
body with the want line "want " parses to the empty want hash, and the
pack walk then calls ReadFull, whose hash slice hash[0:2] has no length
guard — in the embedding that slice must fail, and the concrete run ends
in the panicShortHash error after the NAK has been written.  In general
the readers reach that branch exactly when a hash is shorter than 2
bytes, so "every want hash has length at least 2" is the precondition
required for the branch to be unreachable. -/
theorem C10_short_want_hash_panics :
    (parseReq c10Body = .ok ⟨[([] : Str)], [], []⟩ ∧
     handleRequest wHpk (fun b => b) some [] 5 c10Body
       = (pktFrame ("NAK\n".data), some (.pack (.read .panicShortHash)))) ∧
    ∀ (dec : Str → Option Str) (store : List (Str × Str)) (hash : Str),
      (objReadFull dec store hash = .error .panicShortHash ↔ hash.length < 2) ∧
      (objRead dec store hash = .error .panicShortHash ↔ hash.length < 2) :=
  ⟨⟨by decide, by decide⟩, readFull_panic_iff⟩

/-
  CLAIM C2 — repository initialization (repo.go New, init,
  createInitialCommit), over an explicit filesystem: a list of the
  directory paths MkdirAll was invoked on (ancestor directories elided, as
  no caller stats them) and an association list from file path to content,
  newest write first, so a lookup sees the latest write.
-/

structure FileSys where
  dirs : List Str
  files : List (Str × Str)
deriving DecidableEq

/-- filepath.Join of two components. -/
def joinPath (a b : Str) : Str := a ++ '/' :: b

/-- os.MkdirAll: record the created directory path. -/
def mkdirAll (p : Str) (fs : FileSys) : FileSys :=
  { fs with dirs := p :: fs.dirs }

/-- os.Stat existence check. -/
def statExists (p : Str) (fs : FileSys) : Bool :=
  fs.dirs.contains p || (fs.files.map Prod.fst).contains p

/-- os.WriteFile: the new content shadows any earlier write to the path. -/
def writeFile (p content : Str) (fs : FileSys) : FileSys :=
  { fs with files := (p, content) :: fs.files }

/-- The config file written by init (repo.go lines 74 to 83). -/
def configContent : Str :=
  ("[core]\n\trepositoryformatversion = 0\n\tfilemode = true\n\tbare = false\n\tlogallrefupdates = true\n").data

/-- The README blob content (repo.go line 91). -/
def readmeContent : Str :=
  ("# Infinite Git Repository\n\nThis repository generates a new commit every time you pull.\n").data

/-- init (repo.go lines 51 to 86): the .git directory skeleton, the HEAD
file pointing at refs/heads/main, and the config file. -/
def repoInit (gitDir : Str) (fs : FileSys) : FileSys :=
  let fs1 := mkdirAll gitDir fs
  let fs2 := mkdirAll (joinPath gitDir ("objects".data)) fs1
  let fs3 := mkdirAll (joinPath gitDir ("refs".data)) fs2
  let fs4 := mkdirAll (joinPath (joinPath gitDir ("refs".data)) ("heads".data)) fs3
  let fs5 := mkdirAll (joinPath (joinPath gitDir ("refs".data)) ("tags".data)) fs4
  let fs6 := writeFile (joinPath gitDir ("HEAD".data)) (("ref: refs/heads/main\n").data) fs5
  writeFile (joinPath gitDir ("config".data)) configContent fs6

/-- object.Write against the filesystem (object.go lines 41 to 79): hash
the object, create objects/hex[0:2]/, store the zlib-compressed framed
payload at objects/hex[0:2]/hex[2:]; none models the tree-serialization
panic and the hash slice panic below 2 bytes. -/
def fsObjWrite (comp : Str → Str) (Hhex : Str → Str → Str) (gitDir : Str)
    (o : GitObj) (fs : FileSys) : Option (Str × FileSys) :=
  match serializeObj o with
  | none => none
  | some payload =>
    let hex := Hhex (typeStr o) payload
    if hex.length < 2 then none
    else
      let objDir := joinPath (joinPath gitDir ("objects".data)) (hex.take 2)
      let fs1 := mkdirAll objDir fs
      some (hex, writeFile (joinPath objDir (hex.drop 2))
        (comp (objHeader (typeStr o) payload ++ payload)) fs1)

/-- object.Read against the filesystem (object.go lines 107 to 136). -/
def fsObjRead (dec : Str → Option Str) (gitDir : Str) (fs : FileSys)
    (hash : Str) : Except ReadErr Str :=
  if hash.length < 2 then .error .panicShortHash
  else
    match alookup fs.files
        (joinPath (joinPath (joinPath gitDir ("objects".data)) (hash.take 2))
          (hash.drop 2)) with
    | none => .error .notFound
    | some bytes =>
      match dec bytes with
      | none => .error .zlibError
      | some data =>
        match dropThroughNul data with
        | none => .error .noNullByte
        | some payload => .ok payload

/-- The parentless initial commit object (repo.go lines 109 to 115 and
object.NewCommit): both identities "Infinite Git", message
"Initial commit", timestamps from the clock. -/
def initialCommitObj (treeHash : Str) (t : TimeInfo) : CommitObj :=
  { tree := treeHash, parent := [],
    author := ("Infinite Git <infinite@example.com>").data,
    authorUnix := t.unix, authorTz := t.tz,
    committer := ("Infinite Git <infinite@example.com>").data,
    commitUnix := t.unix, commitTz := t.tz,
    message := ("Initial commit").data }

/-- createInitialCommit (repo.go lines 89 to 134): README blob, one-entry
tree, parentless commit, then the main ref file and the working-copy
README. -/
def fsCreateInitialCommit (comp : Str → Str) (Hhex : Str → Str → Str)
    (path gitDir : Str) (t : TimeInfo) (fs : FileSys) : Option FileSys :=
  match fsObjWrite comp Hhex gitDir (.blob readmeContent) fs with
  | none => none
  | some (blobHash, fs1) =>
    match fsObjWrite comp Hhex gitDir
        (.tree [{ mode := ("100644").data, name := ("README.md").data,
                  hash := blobHash }]) fs1 with
    | none => none
    | some (treeHash, fs2) =>
      match fsObjWrite comp Hhex gitDir
          (.commit (initialCommitObj treeHash t)) fs2 with
      | none => none
      | some (commitHash, fs3) =>
        let fs4 := writeFile
          (joinPath (joinPath (joinPath gitDir ("refs".data)) ("heads".data))
            ("main".data))
          (commitHash ++ ['\n']) fs3
        some (writeFile (joinPath path ("README.md".data)) readmeContent fs4)

/-- repo.New (repo.go lines 23 to 48): ensure the repository directory,
then initialize and write the initial commit only when the .git directory
does not already exist — the presence of refs/heads/main is never
checked. -/
def repoNew (comp : Str → Str) (Hhex : Str → Str → Str) (path : Str)
    (t : TimeInfo) (fs : FileSys) : Option FileSys :=
  let gitDir := joinPath path (".git".data)
  let fs1 := mkdirAll path fs
  if statExists gitDir fs1 then some fs1
  else fsCreateInitialCommit comp Hhex path gitDir t (repoInit gitDir fs1)

def c2Path : Str := "repo".data

/-- A filesystem in which the .git directory already exists, empty
otherwise: in particular refs/heads/main does not exist. -/
def c2Fs0 : FileSys := { dirs := [joinPath c2Path (".git".data)], files := [] }

/-- C2 counterexample: New checks only that the .git directory exists, not
that refs/heads/main does.  On a filesystem with a bare .git directory New
returns successfully having only created the repository directory; neither
refs/heads/main nor the objects directory exists afterwards, refuting both
"idempotently ensures" and "for every path on which New returns without
error, refs/heads/main exists afterwards". -/
theorem C2_counterexample :
    repoNew (fun b => b) wHhex c2Path wTime c2Fs0
      = some { dirs := [c2Path, joinPath c2Path (".git".data)], files := [] } ∧
    alookup ({ dirs := [c2Path, joinPath c2Path (".git".data)],
               files := [] } : FileSys).files
      (joinPath (joinPath (joinPath (joinPath c2Path (".git".data))
        ("refs".data)) ("heads".data)) ("main".data)) = none ∧
    (joinPath (joinPath c2Path (".git".data)) ("objects".data))
      ∉ ({ dirs := [c2Path, joinPath c2Path (".git".data)],
           files := [] } : FileSys).dirs :=
  ⟨by decide, rfl, by decide⟩

set_option maxHeartbeats 1000000 in
/-- C2 amended: on a filesystem where the .git directory does NOT yet
exist, New initializes the full skeleton and writes the initial commit:
the five directories are created, HEAD points at refs/heads/main, the
config file is written, refs/heads/main holds the initial commit's hex
followed by newline, and the commit object itself is stored at its
hash-derived path.  (When .git already exists nothing is ensured, per the
counterexample.)  The hash-length and hex-decodability hypotheses
discharge the embedded slice and tree-serialization panics, which real
SHA-1 hexes always satisfy. -/
theorem C2_fresh_init {comp : Str → Str} {Hhex : Str → Str → Str}
    {path : Str} {t : TimeInfo} {fs0 : FileSys}
    {bin : List Nat} {blobHex treePayload treeHex commitPayload commitHex : Str}
    (hstat : statExists (joinPath path (".git".data)) (mkdirAll path fs0) = false)
    (hbe : blobHex = Hhex ("blob".data) readmeContent)
    (hdec : hexDecode blobHex = some bin)
    (hlb : ¬ blobHex.length < 2)
    (hte : treePayload = ("100644").data ++ ' ' :: ("README.md").data
      ++ nulChar :: (bin.map Char.ofNat ++ []))
    (hth : treeHex = Hhex ("tree".data) treePayload)
    (hlt : ¬ treeHex.length < 2)
    (hce : commitPayload = serializeCommit (initialCommitObj treeHex t))
    (hch : commitHex = Hhex ("commit".data) commitPayload)
    (hlc : ¬ commitHex.length < 2) :
    ∃ fs2,
      repoNew comp Hhex path t fs0 = some fs2 ∧
      joinPath path (".git".data) ∈ fs2.dirs ∧
      joinPath (joinPath path (".git".data)) ("objects".data) ∈ fs2.dirs ∧
      joinPath (joinPath path (".git".data)) ("refs".data) ∈ fs2.dirs ∧
      joinPath (joinPath (joinPath path (".git".data)) ("refs".data))
        ("heads".data) ∈ fs2.dirs ∧
      joinPath (joinPath (joinPath path (".git".data)) ("refs".data))
        ("tags".data) ∈ fs2.dirs ∧
      (joinPath (joinPath path (".git".data)) ("HEAD".data),
        ("ref: refs/heads/main\n").data) ∈ fs2.files ∧
      (joinPath (joinPath path (".git".data)) ("config".data),
        configContent) ∈ fs2.files ∧
      alookup fs2.files
        (joinPath (joinPath (joinPath (joinPath path (".git".data))
          ("refs".data)) ("heads".data)) ("main".data))
        = some (commitHex ++ ['\n']) ∧
      (joinPath (joinPath (joinPath (joinPath path (".git".data))
          ("objects".data)) (commitHex.take 2)) (commitHex.drop 2),
        comp (objHeader ("commit".data) commitPayload ++ commitPayload))
        ∈ fs2.files := by
  subst hbe
  subst hte
  subst hth
  subst hce
  subst hch
  try dsimp only at hdec hlb hlt hlc
  have hrun : repoNew comp Hhex path t fs0
      = fsCreateInitialCommit comp Hhex path (joinPath path (".git".data)) t
          (repoInit (joinPath path (".git".data)) (mkdirAll path fs0)) := by
    simp only [repoNew, hstat, Bool.false_eq_true, if_false]
  rw [hrun]
  unfold fsCreateInitialCommit
  unfold fsObjWrite
  simp only [serializeObj, serializeTree, sortEntries, insertEntry, serEntries,
    typeStr, hdec]
  rw [if_neg hlb]
  try dsimp only
  simp only [hdec]
  try dsimp only
  rw [if_neg hlt]
  try dsimp only
  rw [if_neg hlc]
  try dsimp only
  refine ⟨_, rfl, ?_, ?_, ?_, ?_, ?_, ?_, ?_, ?_, ?_⟩
  · simp [writeFile, mkdirAll, repoInit]
  · simp [writeFile, mkdirAll, repoInit]
  · simp [writeFile, mkdirAll, repoInit]
  · simp [writeFile, mkdirAll, repoInit]
  · simp [writeFile, mkdirAll, repoInit]
  · simp [writeFile, mkdirAll, repoInit]
  · simp [writeFile, mkdirAll, repoInit]
  · have hne : joinPath path ("README.md".data)
        ≠ joinPath (joinPath (joinPath (joinPath path (".git".data))
          ("refs".data)) ("heads".data)) ("main".data) := by
      unfold joinPath
      intro h
      rw [List.append_assoc, List.append_assoc, List.append_assoc] at h
      have h2 := List.append_cancel_left h
      exact absurd h2 (by decide)
    try dsimp only at hne
    simp only [writeFile, mkdirAll, repoInit, alookup]
    rw [if_neg hne, if_pos trivial]
  · simp [writeFile, mkdirAll, repoInit]

def c2Fs1 : FileSys := { dirs := [], files := [] }

def c2BlobHex : Str := wHhex ("blob".data) readmeContent

def c2TreePayload : Str :=
  ("100644").data ++ ' ' :: ("README.md").data
    ++ nulChar :: (([171] : List Nat).map Char.ofNat ++ [])

def c2TreeHex : Str := wHhex ("tree".data) c2TreePayload

def c2CommitPayload : Str := serializeCommit (initialCommitObj c2TreeHex wTime)

def c2CommitHex : Str := wHhex ("commit".data) c2CommitPayload

set_option maxRecDepth 20000 in
theorem C2_fresh_init_witness :
    statExists (joinPath c2Path (".git".data)) (mkdirAll c2Path c2Fs1) = false ∧
    ∃ fs2,
      repoNew (fun b => b) wHhex c2Path wTime c2Fs1 = some fs2 ∧
      joinPath c2Path (".git".data) ∈ fs2.dirs ∧
      joinPath (joinPath c2Path (".git".data)) ("objects".data) ∈ fs2.dirs ∧
      joinPath (joinPath c2Path (".git".data)) ("refs".data) ∈ fs2.dirs ∧
      joinPath (joinPath (joinPath c2Path (".git".data)) ("refs".data))
        ("heads".data) ∈ fs2.dirs ∧
      joinPath (joinPath (joinPath c2Path (".git".data)) ("refs".data))
        ("tags".data) ∈ fs2.dirs ∧
      (joinPath (joinPath c2Path (".git".data)) ("HEAD".data),
        ("ref: refs/heads/main\n").data) ∈ fs2.files ∧
      (joinPath (joinPath c2Path (".git".data)) ("config".data),
        configContent) ∈ fs2.files ∧
      alookup fs2.files
        (joinPath (joinPath (joinPath (joinPath c2Path (".git".data))
          ("refs".data)) ("heads".data)) ("main".data))
        = some (c2CommitHex ++ ['\n']) ∧
      (joinPath (joinPath (joinPath (joinPath c2Path (".git".data))
          ("objects".data)) (c2CommitHex.take 2)) (c2CommitHex.drop 2),
        (fun b : Str => b)
          (objHeader ("commit".data) c2CommitPayload ++ c2CommitPayload))
        ∈ fs2.files :=
  ⟨by decide,
    C2_fresh_init
      (by decide)
      (rfl : c2BlobHex = wHhex ("blob".data) readmeContent)
      (by decide : hexDecode c2BlobHex = some [171])
      (by decide)
      (rfl : c2TreePayload = ("100644").data ++ ' ' :: ("README.md").data
        ++ nulChar :: (([171] : List Nat).map Char.ofNat ++ []))
      (rfl : c2TreeHex = wHhex ("tree".data) c2TreePayload)
      (by decide)
      (rfl : c2CommitPayload = serializeCommit (initialCommitObj c2TreeHex wTime))
      (rfl : c2CommitHex = wHhex ("commit".data) c2CommitPayload)
      (by decide)⟩

end InfiniteGit

